import Mathlib

/-!
# go-notify-pump: worker pool with bounded-queue admission control

A shallow embedding of `internal/worker/pool.go` and
`internal/handler/notification.go`.

The Go program is concurrent: `Run` spawns goroutines that range over a shared
buffered channel, the HTTP handler offers jobs with a `select`/`default`, and
`ShutDown` closes the channel and waits on a `sync.WaitGroup`.  The embedding is
an interleaving model: a state `Sys` (pool, goroutines, standard output) and a
deterministic function `step` that runs one scheduling choice (`Action`).  All
nondeterminism of the Go scheduler lives in the list of actions given to `exec`.

Channel and wait-group operations follow the Go language specification and
`runtime/chan.go`:

* `make(chan T, n)` panics for `n < 0` (and beyond the allocation limit);
* a non-blocking send (`select { case c <- v: ... default: ... }`) panics on a
  closed channel, hands the value to a parked receiver if there is one, else
  buffers it if `len < cap`, else takes the `default` branch;
* a receive takes the head of the buffer, else reports closure, else parks;
* `close` panics on a closed channel and otherwise wakes every parked receiver;
* `WaitGroup.Add` and `WaitGroup.Done` panic when the 32-bit counter leaves the
  range `0 .. 2^31 - 1`; `WaitGroup.Wait` returns at once if the counter is zero
  and otherwise blocks until a `Done` brings it to zero.
-/

namespace NotifyPump

/-! ## Data model -/

/-- The struct `Job` of `pool.go`. -/
structure Job where
  ID : String
  /-- the field `Type` of the Go struct (a reserved word here) -/
  Type_ : String
deriving DecidableEq, Repr

/-- Run-time panics the modelled operations can raise. -/
inductive Panic where
  | makechanSizeOutOfRange
  | closeOfClosedChannel
  | sendOnClosedChannel
  | negativeWaitGroupCounter
deriving DecidableEq, Repr

/-- A Go `chan Job`.  `cap`, `buf` and `closed` are the channel proper
(`dataqsiz`, the ring buffer in FIFO order, `closed`).  The queue of parked
receivers is not stored here: it is the set of goroutines whose program point is
`Loc.parked`.  `sent` and `recvd` are history variables, absent from the Go
program: the values successfully sent on, and received from, the channel, in
the order in which it happened. -/
structure Chan where
  cap : Nat
  buf : List Job
  closed : Bool
  sent : List Job
  recvd : List Job
deriving DecidableEq, Repr

/-- The struct `WorkerPool` of `pool.go`; `WG` is the counter of the
`sync.WaitGroup`.  Go's `int` is taken as the 64-bit integer of the usual
platforms and modelled by `Int`. -/
structure WorkerPool where
  MaxWorkers : Int
  JobQueue : Chan
  WG : Nat
deriving DecidableEq, Repr

/-- Program points of the goroutine body in `Run` (pool.go lines 34-42). -/
inductive Loc where
  /-- spawned, before `fmt.Println("Worker started", workerID)` -/
  | started
  /-- at the head of `for job := range wp.JobQueue`, about to receive -/
  | ready
  /-- blocked in the receive: the channel was empty and open -/
  | parked
  /-- received `job`, before the `Printf` in the loop body -/
  | holding (job : Job)
  /-- left the loop, before `Println("Worker stopped ")` and the deferred `Done` -/
  | stopping
  /-- returned -/
  | exited
deriving DecidableEq, Repr

/-- A goroutine spawned by `Run`, with the `workerID` it was given. -/
structure Worker where
  workerID : Nat
  pc : Loc
deriving DecidableEq, Repr

/-- Lines written to standard output by the workers. -/
inductive Line where
  | workerStarted (workerID : Nat)
  | processing (workerID : Nat) (job : Job)
  | workerStopped (workerID : Nat)
deriving DecidableEq, Repr

/-- Program points of the goroutine that calls `ShutDown` (the main goroutine
in `main.go`). -/
inductive CallLoc where
  /-- not inside `ShutDown`, and no call of it has returned -/
  | outside
  /-- inside `ShutDown`, blocked in `wp.WG.Wait()`: it is registered as a waiter
  of the wait group -/
  | inWait
  /-- a call of `ShutDown` has returned -/
  | returned
deriving DecidableEq, Repr

/-- The whole system: the pool, the goroutines spawned so far (in spawn
order; the position in the list identifies the goroutine), standard output,
and where the caller of `ShutDown` stands. -/
structure Sys where
  wp : WorkerPool
  workers : List Worker
  out : List Line
  caller : CallLoc
deriving DecidableEq, Repr

/-! ## Observers -/

/-- The job a goroutine holds, if it is between receive and print. -/
def Loc.job? : Loc → Option Job
  | .holding j => some j
  | _ => none

/-- Jobs currently held by workers (received, not yet processed). -/
def held (ws : List Worker) : List Job :=
  ws.filterMap (fun w => w.pc.job?)

/-- The job of a "processing job" output line. -/
def Line.job? : Line → Option Job
  | .processing _ j => some j
  | _ => none

/-- Jobs processed so far, in the order of their output lines. -/
def processed (out : List Line) : List Job :=
  out.filterMap Line.job?

/-- Whether a goroutine has not returned yet. -/
def Worker.live (w : Worker) : Bool :=
  decide (w.pc ≠ .exited)

/-- Number of worker goroutines that have not returned. -/
def liveCount (ws : List Worker) : Nat :=
  ws.countP Worker.live

/-- Number of queued jobs. -/
def Sys.queued (s : Sys) : Nat :=
  s.wp.JobQueue.buf.length

/-- Jobs in flight: queued plus currently held by a worker. -/
def Sys.inFlight (s : Sys) : Nat :=
  s.wp.JobQueue.buf.length + (held s.workers).length

/-! ## Construction: `NewWorkerPool` -/

/-- Go's `make(chan Job, size)`.  `limit` is the largest element count the
runtime accepts for this element type (`(maxAlloc - hchanSize) / sizeof(Job)`,
a platform constant); `makechan` panics with "size out of range" for a negative
size or one above it.  A size of zero gives an unbuffered channel. -/
def makechan (limit : Nat) (size : Int) : Except Panic Chan :=
  if size < 0 ∨ (limit : Int) < size then
    .error .makechanSizeOutOfRange
  else
    .ok { cap := size.toNat, buf := [], closed := false, sent := [], recvd := [] }

/-- The function `NewWorkerPool` of pool.go (lines 19-27): no argument is
validated; the only failure is the panic of `make`. -/
def NewWorkerPool (limit : Nat) (maxWorkers queueSize : Int) : Except Panic WorkerPool :=
  match makechan limit queueSize with
  | .error p => .error p
  | .ok jobQueue => .ok { MaxWorkers := maxWorkers, JobQueue := jobQueue, WG := 0 }

/-- The system around a freshly constructed pool: no goroutine has been
spawned, nothing has been printed, `ShutDown` has not been called. -/
def boot (wp : WorkerPool) : Sys :=
  { wp := wp, workers := [], out := [], caller := .outside }

/-! ## Start: `Run` -/

/-- The counter of a `sync.WaitGroup` is an `int32`; it lives in
`0 .. wgLimit - 1`. -/
def wgLimit : Nat := 2147483648

/-- The call `wp.WG.Add(1)`: the counter is raised by one, and `Add` panics
("negative WaitGroup counter") when the `int32` counter thereby wraps around,
that is when it stood at `2^31 - 1`. -/
def wgAdd (wp : WorkerPool) : Except Panic WorkerPool :=
  if wp.WG + 1 < wgLimit then .ok { wp with WG := wp.WG + 1 }
  else .error .negativeWaitGroupCounter

/-- One iteration of the loop of `Run` (lines 32-42): `wp.WG.Add(1)` and, if
that did not panic, the `go` statement with `workerID = i`. -/
def spawn (s : Sys) (i : Nat) : Except Panic Sys :=
  match wgAdd s.wp with
  | .error p => .error p
  | .ok wp1 =>
    .ok { s with
      wp := wp1
      workers := s.workers ++ [{ workerID := i, pc := .started }] }

/-- The loop `for i := 0; i < wp.MaxWorkers; i++` of `Run`, by recursion on
the number `k` of iterations left (`MaxWorkers - i`).  A panic in an iteration
ends the loop (and the process). -/
def runLoop : Nat → Nat → Sys → Except Panic Sys
  | 0, _, s => .ok s
  | k + 1, i, s =>
    match spawn s i with
    | .error p => .error p
    | .ok s1 => runLoop k (i + 1) s1

/-- The method `Run` of pool.go (lines 29-44).  With `MaxWorkers <= 0` the loop
condition fails at once.  The loop is run as one block; the goroutines take
their steps through `step`, and a step taken between two iterations commutes
with the iterations that follow (`workerStep_spawn`). -/
def Run (s : Sys) : Except Panic Sys :=
  runLoop s.wp.MaxWorkers.toNat 0 s

/-! ## Channel operations -/

/-- Hand `job` directly to the `k`-th parked receiver (counting from zero in
spawn order), which thereby leaves the receive holding the job.  `none` when
fewer than `k + 1` receivers are parked. -/
def handTo (job : Job) : Nat → List Worker → Option (List Worker)
  | _, [] => none
  | k, w :: ws =>
    if w.pc = .parked then
      match k with
      | 0 => some ({ w with pc := .holding job } :: ws)
      | k + 1 => (handTo job k ws).map (fun ws1 => w :: ws1)
    else
      (handTo job k ws).map (fun ws1 => w :: ws1)

/-- Dequeue a parked receiver for `job`.  Go does not specify which of several
parked receivers is served; `pick` is that choice (the `pick`-th parked one, or
the first when `pick` is out of range).  `none` iff no receiver is parked. -/
def deliver (job : Job) (pick : Nat) (ws : List Worker) : Option (List Worker) :=
  match handTo job pick ws with
  | some ws1 => some ws1
  | none => handTo job 0 ws

/-- Outcome of a non-blocking send. -/
inductive SendResult where
  /-- the send case was taken; the new state -/
  | sent (s : Sys)
  /-- the `default` case was taken; nothing changed -/
  | full
  /-- the send panicked; nothing changed -/
  | panics (p : Panic)
deriving DecidableEq, Repr

/-- The non-blocking send `select { case wp.JobQueue <- job: ... default: ... }`
(`runtime.selectnbsend`, i.e. `chansend` with `block = false`): panic if the
channel is closed; else hand over to a parked receiver; else buffer if there is
room; else report `full`.  It never parks the caller. -/
def selectnbsend (s : Sys) (job : Job) (pick : Nat) : SendResult :=
  if s.wp.JobQueue.closed then
    .panics .sendOnClosedChannel
  else
    match deliver job pick s.workers with
    | some ws =>
      .sent { s with
        workers := ws
        wp := { s.wp with JobQueue := { s.wp.JobQueue with
          sent := s.wp.JobQueue.sent ++ [job]
          recvd := s.wp.JobQueue.recvd ++ [job] } } }
    | none =>
      if s.wp.JobQueue.buf.length < s.wp.JobQueue.cap then
        .sent { s with
          wp := { s.wp with JobQueue := { s.wp.JobQueue with
            buf := s.wp.JobQueue.buf ++ [job]
            sent := s.wp.JobQueue.sent ++ [job] } } }
      else
        .full

/-- A receiver woken by `close`: it leaves the `range` loop. -/
def wake (w : Worker) : Worker :=
  if w.pc = .parked then { w with pc := .stopping } else w

/-- Go's `close(wp.JobQueue)`: panics on a closed channel; otherwise marks it
closed and releases every parked receiver.  Buffered jobs stay. -/
def closechan (s : Sys) : Except Panic Sys :=
  if s.wp.JobQueue.closed then
    .error .closeOfClosedChannel
  else
    .ok { s with
      wp := { s.wp with JobQueue := { s.wp.JobQueue with closed := true } }
      workers := s.workers.map wake }

/-- The deferred `wp.WG.Done()`: panics if the counter would go negative. -/
def wgDone (wp : WorkerPool) : Except Panic WorkerPool :=
  match wp.WG with
  | 0 => .error .negativeWaitGroupCounter
  | n + 1 => .ok { wp with WG := n }

/-- What `Done` does to a waiter: when it has brought the counter to `wg = 0`
it releases the goroutine blocked in `Wait`, whose `ShutDown` thereby
returns. -/
def release (wg : Nat) (who : CallLoc) : CallLoc :=
  if wg = 0 then
    match who with
    | .inWait => .returned
    | other => other
  else who

/-! ## The worker goroutine -/

/-- Goroutine `g` (position in `workers`) runs up to its next program point.
A parked or returned goroutine, or a `g` that names no goroutine, leaves the
state as it is. -/
def workerStep (s : Sys) (g : Nat) : Except Panic Sys :=
  match s.workers[g]? with
  | none => .ok s
  | some w =>
    match w.pc with
    | .started =>
      .ok { s with
        workers := s.workers.set g { w with pc := .ready }
        out := s.out ++ [.workerStarted w.workerID] }
    | .ready =>
      match s.wp.JobQueue.buf with
      | job :: rest =>
        .ok { s with
          wp := { s.wp with JobQueue := { s.wp.JobQueue with
            buf := rest
            recvd := s.wp.JobQueue.recvd ++ [job] } }
          workers := s.workers.set g { w with pc := .holding job } }
      | [] =>
        if s.wp.JobQueue.closed then
          .ok { s with workers := s.workers.set g { w with pc := .stopping } }
        else
          .ok { s with workers := s.workers.set g { w with pc := .parked } }
    | .parked => .ok s
    | .holding job =>
      .ok { s with
        workers := s.workers.set g { w with pc := .ready }
        out := s.out ++ [.processing w.workerID job] }
    | .stopping =>
      match wgDone s.wp with
      | .error p => .error p
      | .ok wp1 =>
        .ok { s with
          wp := wp1
          workers := s.workers.set g { w with pc := .exited }
          out := s.out ++ [.workerStopped w.workerID]
          caller := release wp1.WG s.caller }
    | .exited => .ok s

/-! ## Shutdown: `ShutDown` -/

/-- How a call of `ShutDown` proceeds from the state it is invoked in. -/
inductive CallResult where
  /-- the call has returned: `Wait` found the counter at zero -/
  | returned (s : Sys)
  /-- the channel is closed and the caller is blocked in `Wait`; the `Done`
  that brings the counter to zero releases it -/
  | waiting (s : Sys)
  /-- the call panicked in state `s` -/
  | panicked (p : Panic) (s : Sys)
deriving DecidableEq, Repr

/-- The method `ShutDown` of pool.go (lines 46-49): `close(wp.JobQueue)` and
then `wp.WG.Wait()`.  There is no guard in front of the `close`.  `Wait`
returns at once if the counter is zero; otherwise the caller blocks in it.  The
check of `Wait` is taken in the state the `close` leaves. -/
def ShutDown (s : Sys) : CallResult :=
  match closechan s with
  | .error p => .panicked p s
  | .ok s1 =>
    if s1.wp.WG = 0 then .returned { s1 with caller := .returned }
    else .waiting { s1 with caller := .inWait }

/-- The state in which `ShutDown` has closed the queue, if it got that far. -/
def CallResult.begun : CallResult → Option Sys
  | .returned s => some s
  | .waiting s => some s
  | .panicked _ _ => none

/-- The call `wp.WG.Wait()` returns exactly when the counter is zero. -/
def waitReturns (s : Sys) : Prop :=
  s.wp.WG = 0

instance (s : Sys) : Decidable (waitReturns s) := by
  unfold waitReturns; infer_instance

/-! ## The gateway: `SendNotification` -/

/-- The request body after `c.ShouldBindJSON(&req)` succeeded. -/
structure Req where
  /-- the field `Type` of the request (JSON key `type`) -/
  Type_ : String
  Payload : String
deriving DecidableEq, Repr

/-- An HTTP answer written with `c.JSON`: status code and the entries of the
`gin.H` map. -/
structure Response where
  status : Nat
  body : List (String × String)
deriving DecidableEq, Repr

/-- What one call of the handler does. -/
inductive HandlerResult where
  /-- the handler wrote `r` and returned, leaving the system in `s` -/
  | responded (r : Response) (s : Sys)
  /-- the handler panicked in state `s` (the HTTP server recovers it) -/
  | panicked (p : Panic) (s : Sys)
deriving DecidableEq, Repr

/-- The job built by the handler (lines 37-42): the ID is the decimal rendering
of `time.Now().UnixNano()`, the type is the request's; the payload is dropped. -/
def mkJob (req : Req) (now : Int) : Job :=
  { ID := toString now, Type_ := req.Type_ }

/-- The method `SendNotification` of notification.go (lines 22-56).  `bind` is
the result of `c.ShouldBindJSON(&req)` (the error text or the request), `now`
the reading of the clock and `pick` the receiver choice of the send. -/
def SendNotification (s : Sys) (bind : Except String Req) (now : Int) (pick : Nat) :
    HandlerResult :=
  match bind with
  | .error err => .responded { status := 400, body := [("error", err)] } s
  | .ok req =>
    let jobID := toString now
    let job : Job := { ID := jobID, Type_ := req.Type_ }
    match selectnbsend s job pick with
    | .sent s1 =>
      .responded { status := 202, body := [("message", "Request queued"), ("job_id", jobID)] } s1
    | .full =>
      .responded { status := 503, body := [("error", "Server is busy, too many request")] } s
    | .panics p => .panicked p s

/-- The state a handler call leaves behind. -/
def HandlerResult.state : HandlerResult → Sys
  | .responded _ s => s
  | .panicked _ s => s

/-! ## Interleaved executions -/

/-- One scheduling choice. -/
inductive Action where
  /-- goroutine `g` runs to its next program point -/
  | worker (g : Nat)
  /-- one call of `SendNotification` runs from start to end; its only access
  to shared state is the single `select` -/
  | request (bind : Except String Req) (now : Int) (pick : Nat)
  /-- a call of `ShutDown`: it closes the queue and returns or blocks in `Wait` -/
  | shutdown

/-- Run one action.  An error is a panic that ends the process: a panic in a
worker goroutine or in the caller of `ShutDown`.  A panic inside the handler is
recovered per request and leaves the system running. -/
def step (s : Sys) : Action → Except Panic Sys
  | .worker g => workerStep s g
  | .request bind now pick => .ok (SendNotification s bind now pick).state
  | .shutdown =>
    match ShutDown s with
    | .returned s1 => .ok s1
    | .waiting s1 => .ok s1
    | .panicked p _ => .error p

/-- Run a schedule, stopping at the first process-ending panic. -/
def exec (s : Sys) : List Action → Except Panic Sys
  | [] => .ok s
  | a :: as =>
    match step s a with
    | .error p => .error p
    | .ok s1 => exec s1 as

/-! ## Atomic transitions, as a relation

`Trans s t` lists the state changes a single action can make.  It is a proof
device: `step_trans` below shows that `step` makes no other change. -/

/-- The state changes of one action, one constructor per program point. -/
inductive Trans : Sys → Sys → Prop where
  /-- a worker prints "Worker started" and reaches the loop head -/
  | start (M : Int) (c : Chan) (n : Nat) (l1 l2 : List Worker) (i : Nat) (out : List Line)
      (who : CallLoc) :
    Trans ⟨⟨M, c, n⟩, l1 ++ ⟨i, .started⟩ :: l2, out, who⟩
      ⟨⟨M, c, n⟩, l1 ++ ⟨i, .ready⟩ :: l2, out ++ [.workerStarted i], who⟩
  /-- a worker receives the head of the buffer -/
  | recv (M : Int) (cap : Nat) (job : Job) (rest : List Job) (cl : Bool) (sent recvd : List Job)
      (n : Nat) (l1 l2 : List Worker) (i : Nat) (out : List Line) (who : CallLoc) :
    Trans ⟨⟨M, ⟨cap, job :: rest, cl, sent, recvd⟩, n⟩, l1 ++ ⟨i, .ready⟩ :: l2, out, who⟩
      ⟨⟨M, ⟨cap, rest, cl, sent, recvd ++ [job]⟩, n⟩, l1 ++ ⟨i, .holding job⟩ :: l2, out, who⟩
  /-- a worker finds the channel empty and closed and leaves the loop -/
  | leave (M : Int) (cap : Nat) (sent recvd : List Job)
      (n : Nat) (l1 l2 : List Worker) (i : Nat) (out : List Line) (who : CallLoc) :
    Trans ⟨⟨M, ⟨cap, [], true, sent, recvd⟩, n⟩, l1 ++ ⟨i, .ready⟩ :: l2, out, who⟩
      ⟨⟨M, ⟨cap, [], true, sent, recvd⟩, n⟩, l1 ++ ⟨i, .stopping⟩ :: l2, out, who⟩
  /-- a worker finds the channel empty and open and parks -/
  | park (M : Int) (cap : Nat) (sent recvd : List Job)
      (n : Nat) (l1 l2 : List Worker) (i : Nat) (out : List Line) (who : CallLoc) :
    Trans ⟨⟨M, ⟨cap, [], false, sent, recvd⟩, n⟩, l1 ++ ⟨i, .ready⟩ :: l2, out, who⟩
      ⟨⟨M, ⟨cap, [], false, sent, recvd⟩, n⟩, l1 ++ ⟨i, .parked⟩ :: l2, out, who⟩
  /-- a worker prints the job it holds and returns to the loop head -/
  | process (M : Int) (c : Chan) (n : Nat) (l1 l2 : List Worker) (i : Nat) (job : Job)
      (out : List Line) (who : CallLoc) :
    Trans ⟨⟨M, c, n⟩, l1 ++ ⟨i, .holding job⟩ :: l2, out, who⟩
      ⟨⟨M, c, n⟩, l1 ++ ⟨i, .ready⟩ :: l2, out ++ [.processing i job], who⟩
  /-- a worker prints "Worker stopped" and runs the deferred `Done`, which
  releases the waiter if the counter has reached zero -/
  | done (M : Int) (c : Chan) (n : Nat) (l1 l2 : List Worker) (i : Nat) (out : List Line)
      (who : CallLoc) :
    Trans ⟨⟨M, c, n + 1⟩, l1 ++ ⟨i, .stopping⟩ :: l2, out, who⟩
      ⟨⟨M, c, n⟩, l1 ++ ⟨i, .exited⟩ :: l2, out ++ [.workerStopped i], release n who⟩
  /-- a send hands the job to a parked worker -/
  | handoff (M : Int) (cap : Nat) (buf sent recvd : List Job) (n : Nat) (l1 l2 : List Worker)
      (i : Nat) (job : Job) (out : List Line) (who : CallLoc) :
    Trans ⟨⟨M, ⟨cap, buf, false, sent, recvd⟩, n⟩, l1 ++ ⟨i, .parked⟩ :: l2, out, who⟩
      ⟨⟨M, ⟨cap, buf, false, sent ++ [job], recvd ++ [job]⟩, n⟩,
        l1 ++ ⟨i, .holding job⟩ :: l2, out, who⟩
  /-- a send appends the job to the buffer -/
  | enqueue (M : Int) (cap : Nat) (buf sent recvd : List Job) (n : Nat) (ws : List Worker)
      (job : Job) (out : List Line) (who : CallLoc) (hfree : buf.length < cap)
      (hnone : ∀ w ∈ ws, w.pc ≠ .parked) :
    Trans ⟨⟨M, ⟨cap, buf, false, sent, recvd⟩, n⟩, ws, out, who⟩
      ⟨⟨M, ⟨cap, buf ++ [job], false, sent ++ [job], recvd⟩, n⟩, ws, out, who⟩
  /-- `ShutDown` closes the channel, which releases the parked workers, and
  returns if the counter is zero or else blocks in `Wait` -/
  | shutdown (M : Int) (cap : Nat) (buf sent recvd : List Job) (n : Nat) (ws : List Worker)
      (out : List Line) (who : CallLoc) :
    Trans ⟨⟨M, ⟨cap, buf, false, sent, recvd⟩, n⟩, ws, out, who⟩
      ⟨⟨M, ⟨cap, buf, true, sent, recvd⟩, n⟩, ws.map wake, out,
        if n = 0 then .returned else .inWait⟩

/-- The invariant of every state reachable from a started pool. -/
structure Inv (s : Sys) : Prop where
  /-- the buffer never exceeds the capacity -/
  cap_ok : s.wp.JobQueue.buf.length ≤ s.wp.JobQueue.cap
  /-- a worker is parked only while the channel is empty and open -/
  parked_ok : ∀ w ∈ s.workers, w.pc = .parked →
    s.wp.JobQueue.buf = [] ∧ s.wp.JobQueue.closed = false
  /-- jobs are received in the order they were sent -/
  fifo : s.wp.JobQueue.recvd ++ s.wp.JobQueue.buf = s.wp.JobQueue.sent
  /-- every received job is either printed once or still held -/
  once : (processed s.out ++ held s.workers).Perm s.wp.JobQueue.recvd
  /-- the wait-group counter is the number of workers that have not returned -/
  wg_ok : s.wp.WG = liveCount s.workers
  /-- a worker leaves the loop only when the channel is closed and drained -/
  gone_ok : ∀ w ∈ s.workers, (w.pc = .stopping ∨ w.pc = .exited) →
    s.wp.JobQueue.closed = true ∧ s.wp.JobQueue.buf = []
  /-- `ShutDown` has returned only if the counter is zero -/
  ret_ok : s.caller = .returned → s.wp.WG = 0
  /-- a caller blocked in `Wait` has a `Done` to wait for -/
  wait_ok : s.caller = .inWait → 0 < s.wp.WG
  /-- `ShutDown` has been entered only if the channel is closed -/
  call_ok : s.caller ≠ .outside → s.wp.JobQueue.closed = true

/-! ## Relations between states, and auxiliary definitions -/

/-- Relation between a state and a later one: the configuration and the set of
goroutines are fixed, a closed channel stays closed and accepts nothing, and
the histories and the output only grow. -/
structure Later (s t : Sys) : Prop where
  maxWorkers_eq : t.wp.MaxWorkers = s.wp.MaxWorkers
  cap_eq : t.wp.JobQueue.cap = s.wp.JobQueue.cap
  ids_eq : t.workers.map Worker.workerID = s.workers.map Worker.workerID
  closed_mono : s.wp.JobQueue.closed = true → t.wp.JobQueue.closed = true
  sent_grows : ∃ e, t.wp.JobQueue.sent = s.wp.JobQueue.sent ++ e ∧
    (s.wp.JobQueue.closed = true → e = [])
  recvd_grows : ∃ r, t.wp.JobQueue.recvd = s.wp.JobQueue.recvd ++ r
  out_grows : ∃ o, t.out = s.out ++ o
  wg_le : t.wp.WG ≤ s.wp.WG
  caller_mono : s.caller ≠ .outside → t.caller ≠ .outside

/-- The workers spawned by `k` iterations starting at loop index `i`. -/
def fresh (i k : Nat) : List Worker :=
  (List.range' i k).map (fun j => { workerID := j, pc := .started })

/-- Number of own steps after which a worker at program point `pc` has
returned, once the channel is closed with `b` jobs left in the buffer and no
other goroutine runs. -/
def stepsLeft : Loc → Nat → Nat
  | .exited, _ => 0
  | .stopping, _ => 1
  | .ready, b => 2 * b + 2
  | .holding _, b => 2 * b + 3
  | .started, b => 2 * b + 3
  | .parked, _ => 0

/-- A submission as scheduled: the parsed request, the clock reading and the
receiver choice. -/
def toAction (r : Req × Int × Nat) : Action :=
  .request (.ok r.1) r.2.1 r.2.2

/-- The jobs the handler builds for a sequence of submissions. -/
def jobsOf (reqs : List (Req × Int × Nat)) : List Job :=
  reqs.map (fun r => mkJob r.1 r.2.1)

/-! ## A concrete scenario: two workers, capacity three -/

/-- The pool `NewWorkerPool(2, 3)`. -/
def demoPool : WorkerPool :=
  { MaxWorkers := 2, JobQueue := { cap := 3, buf := [], closed := false, sent := [], recvd := [] },
    WG := 0 }

/-- The state an execution ends in (the idle pool if it panicked). -/
def stateOf : Except Panic Sys → Sys
  | .ok s => s
  | .error _ => boot demoPool

/-- The pool above after `Run`. -/
def demoStarted : Sys :=
  stateOf (Run (boot demoPool))

/-- The started pool after a second `Run`. -/
def demoTwice : Sys :=
  stateOf (Run demoStarted)

/-- A pool with as many workers as the wait-group counter has values. -/
def bigPool : WorkerPool :=
  { MaxWorkers := 2147483648,
    JobQueue := { cap := 3, buf := [], closed := false, sent := [], recvd := [] }, WG := 0 }

/-- A parsed request of the given type. -/
def demoReq (t : String) : Except String Req :=
  .ok { Type_ := t, Payload := "hello" }

/-- Worker 0 parks; three requests arrive: the first is handed to worker 0,
the other two are buffered (worker 1 has not reached the loop yet). -/
def drainActs0 : List Action :=
  [.worker 0, .worker 0, .request (demoReq "email") 1 0, .request (demoReq "sms") 2 0,
    .request (demoReq "push") 3 0]

/-- The state in which `ShutDown` is invoked: one job held, two queued. -/
def drainS0 : Sys :=
  stateOf (exec demoStarted drainActs0)

/-- The state in which `ShutDown` has closed the queue and blocks in `Wait`. -/
def drainS1 : Sys :=
  stateOf (step drainS0 .shutdown)

/-- The workers drain the queue and return; a late request arrives in between. -/
def drainActs : List Action :=
  [.worker 1, .worker 1, .worker 0, .request (demoReq "late") 4 0, .worker 0, .worker 0,
    .worker 1, .worker 0, .worker 0, .worker 1, .worker 1]

/-- The state in which `ShutDown` has returned. -/
def drainS2 : Sys :=
  stateOf (exec drainS1 drainActs)

/-- Both workers park, two requests are handed over, three are buffered. -/
def fullActs : List Action :=
  [.worker 0, .worker 0, .worker 1, .worker 1, .request (demoReq "a") 1 0,
    .request (demoReq "b") 2 0, .request (demoReq "c") 3 0, .request (demoReq "d") 4 0,
    .request (demoReq "e") 5 0]

/-- The saturated state: five jobs in flight. -/
def fullS : Sys :=
  stateOf (exec demoStarted fullActs)

/-- Three submissions by one producer. -/
def fifoReqs : List (Req × Int × Nat) :=
  [(⟨"email", "hello"⟩, 1, 0), (⟨"sms", "hello"⟩, 2, 0), (⟨"push", "hello"⟩, 3, 0)]

/-! ## Basic lemmas on lists of workers -/

theorem set_split {α : Type} : ∀ (ws : List α) (g : Nat) (w : α), ws[g]? = some w →
    ∃ l1 l2, ws = l1 ++ w :: l2 ∧ ∀ w1, ws.set g w1 = l1 ++ w1 :: l2
  | [], g, w, h => by simp at h
  | x :: xs, 0, w, h => by
    simp at h
    subst h
    exact ⟨[], xs, rfl, fun _ => rfl⟩
  | x :: xs, g + 1, w, h => by
    simp at h
    obtain ⟨l1, l2, h1, h2⟩ := set_split xs g w h
    refine ⟨x :: l1, l2, by simp [h1], fun w1 => ?_⟩
    simp [h2 w1]

theorem handTo_some (job : Job) : ∀ (k : Nat) (ws ws1 : List Worker),
    handTo job k ws = some ws1 →
    ∃ l1 i l2, ws = l1 ++ ⟨i, .parked⟩ :: l2 ∧ ws1 = l1 ++ ⟨i, .holding job⟩ :: l2
  | _, [], ws1, h => by simp [handTo] at h
  | k, w :: ws, ws1, h => by
    obtain ⟨i, pc⟩ := w
    simp only [handTo] at h
    split at h
    · rename_i hp
      have hp1 : pc = .parked := hp
      subst hp1
      cases k with
      | zero =>
        simp at h
        exact ⟨[], i, ws, rfl, h.symm⟩
      | succ k =>
        simp only [Option.map_eq_some'] at h
        obtain ⟨ws2, h2, rfl⟩ := h
        obtain ⟨l1, i1, l2, e1, e2⟩ := handTo_some job k ws ws2 h2
        exact ⟨⟨i, .parked⟩ :: l1, i1, l2, by simp [e1], by simp [e2]⟩
    · simp only [Option.map_eq_some'] at h
      obtain ⟨ws2, h2, rfl⟩ := h
      obtain ⟨l1, i1, l2, e1, e2⟩ := handTo_some job k ws ws2 h2
      exact ⟨⟨i, pc⟩ :: l1, i1, l2, by simp [e1], by simp [e2]⟩

theorem handTo_zero_none (job : Job) : ∀ (ws : List Worker),
    handTo job 0 ws = none ↔ ∀ w ∈ ws, w.pc ≠ .parked
  | [] => by simp [handTo]
  | w :: ws => by
    have ih := handTo_zero_none job ws
    by_cases hp : w.pc = .parked
    · simp [handTo, hp]
    · simp [handTo, hp, ih]

theorem deliver_some (job : Job) (pick : Nat) (ws ws1 : List Worker)
    (h : deliver job pick ws = some ws1) :
    ∃ l1 i l2, ws = l1 ++ ⟨i, .parked⟩ :: l2 ∧ ws1 = l1 ++ ⟨i, .holding job⟩ :: l2 := by
  unfold deliver at h
  cases h2 : handTo job pick ws with
  | some ws2 =>
    rw [h2] at h
    cases h
    exact handTo_some job pick ws _ h2
  | none =>
    rw [h2] at h
    exact handTo_some job 0 ws ws1 h

theorem deliver_none (job : Job) (pick : Nat) (ws : List Worker) :
    deliver job pick ws = none ↔ ∀ w ∈ ws, w.pc ≠ .parked := by
  unfold deliver
  cases h2 : handTo job pick ws with
  | some ws2 =>
    constructor
    · intro h
      cases h
    · intro hall
      obtain ⟨l1, i, l2, e1, _⟩ := handTo_some job pick ws ws2 h2
      exact absurd rfl (hall ⟨i, .parked⟩ (by simp [e1]))
  | none => exact handTo_zero_none job ws

/-! ## `step` makes only the listed transitions -/

theorem workerStep_trans (s t : Sys) (g : Nat) (h : workerStep s g = .ok t) :
    t = s ∨ Trans s t := by
  obtain ⟨⟨M, ⟨cap, buf, cl, sent, recvd⟩, n⟩, ws, out, who⟩ := s
  unfold workerStep at h
  cases hg : ws[g]? with
  | none =>
    simp only [hg] at h
    cases h
    exact Or.inl rfl
  | some w =>
    obtain ⟨l1, l2, e1, e2⟩ := set_split ws g w hg
    obtain ⟨i, pc⟩ := w
    simp only [hg] at h
    cases pc with
    | started =>
      simp only [e2] at h
      cases h
      subst e1
      exact Or.inr (Trans.start _ _ _ _ _ _ _ _)
    | ready =>
      simp only at h
      cases buf with
      | cons job rest =>
        simp only [e2] at h
        cases h
        subst e1
        exact Or.inr (Trans.recv _ _ _ _ _ _ _ _ _ _ _ _ _)
      | nil =>
        cases cl with
        | true =>
          simp only [e2, if_true] at h
          cases h
          subst e1
          exact Or.inr (Trans.leave _ _ _ _ _ _ _ _ _ _)
        | false =>
          simp only [e2] at h
          cases h
          subst e1
          exact Or.inr (Trans.park _ _ _ _ _ _ _ _ _ _)
    | parked =>
      cases h
      exact Or.inl rfl
    | holding job =>
      simp only [e2] at h
      cases h
      subst e1
      exact Or.inr (Trans.process _ _ _ _ _ _ _ _ _)
    | stopping =>
      cases n with
      | zero => simp [wgDone] at h
      | succ n =>
        simp only [wgDone, e2] at h
        cases h
        subst e1
        exact Or.inr (Trans.done _ _ _ _ _ _ _ _)
    | exited =>
      cases h
      exact Or.inl rfl

theorem selectnbsend_trans (s t : Sys) (job : Job) (pick : Nat)
    (h : selectnbsend s job pick = .sent t) : Trans s t := by
  obtain ⟨⟨M, ⟨cap, buf, cl, sent, recvd⟩, n⟩, ws, out, who⟩ := s
  unfold selectnbsend at h
  cases cl with
  | true => simp at h
  | false =>
    simp only [Bool.false_eq_true, if_false] at h
    cases hd : deliver job pick ws with
    | some ws1 =>
      obtain ⟨l1, i, l2, e1, e2⟩ := deliver_some job pick ws ws1 hd
      simp only [hd] at h
      cases h
      subst e1 e2
      exact Trans.handoff _ _ _ _ _ _ _ _ _ _ _ _
    | none =>
      simp only [hd] at h
      split at h
      · rename_i hlt
        cases h
        exact Trans.enqueue _ _ _ _ _ _ _ _ _ _ hlt ((deliver_none job pick ws).1 hd)
      · cases h

theorem ShutDown_trans (s t : Sys) (h : (ShutDown s).begun = some t) : Trans s t := by
  obtain ⟨⟨M, ⟨cap, buf, cl, sent, recvd⟩, n⟩, ws, out, who⟩ := s
  unfold ShutDown closechan at h
  cases cl with
  | true => simp [CallResult.begun] at h
  | false =>
    simp only [Bool.false_eq_true, if_false] at h
    by_cases hn : n = 0
    · simp only [hn, if_true, CallResult.begun, Option.some.injEq] at h
      subst h
      subst hn
      exact Trans.shutdown _ _ _ _ _ _ _ _ _
    · simp only [hn, if_false, CallResult.begun, Option.some.injEq] at h
      subst h
      have := Trans.shutdown M cap buf sent recvd n ws out who
      simpa only [hn, if_false] using this

theorem step_shutdown_iff (s t : Sys) :
    step s .shutdown = .ok t ↔ (ShutDown s).begun = some t := by
  simp only [step]
  cases ShutDown s with
  | returned s1 => simp [CallResult.begun]
  | waiting s1 => simp [CallResult.begun]
  | panicked p s1 => simp [CallResult.begun]

theorem SendNotification_trans (s : Sys) (bind : Except String Req) (now : Int) (pick : Nat) :
    (SendNotification s bind now pick).state = s ∨
      Trans s (SendNotification s bind now pick).state := by
  unfold SendNotification
  cases bind with
  | error err => exact Or.inl rfl
  | ok req =>
    simp only
    cases hs : selectnbsend s ⟨toString now, req.Type_⟩ pick with
    | sent s1 => exact Or.inr (selectnbsend_trans s s1 _ pick hs)
    | full => exact Or.inl rfl
    | panics p => exact Or.inl rfl

theorem step_trans (s t : Sys) (a : Action) (h : step s a = .ok t) : t = s ∨ Trans s t := by
  cases a with
  | worker g => exact workerStep_trans s t g h
  | request bind now pick =>
    simp only [step] at h
    cases h
    exact SendNotification_trans s bind now pick
  | shutdown => exact Or.inr (ShutDown_trans s t ((step_shutdown_iff s t).1 h))

/-! ## The invariant is preserved -/

theorem held_append (l1 l2 : List Worker) : held (l1 ++ l2) = held l1 ++ held l2 := by
  simp [held, List.filterMap_append]

theorem held_cons_holding (i : Nat) (job : Job) (l : List Worker) :
    held (⟨i, .holding job⟩ :: l) = job :: held l := by
  simp [held, List.filterMap_cons, Loc.job?]

theorem held_cons_other (i : Nat) (pc : Loc) (l : List Worker) (h : pc.job? = none) :
    held (⟨i, pc⟩ :: l) = held l := by
  simp [held, List.filterMap_cons, h]

theorem held_map_wake (ws : List Worker) : held (ws.map wake) = held ws := by
  induction ws with
  | nil => rfl
  | cons w ws ih =>
    obtain ⟨i, pc⟩ := w
    cases pc <;> simp_all [held, wake, List.filterMap_cons, Loc.job?]

theorem liveCount_append (l1 l2 : List Worker) :
    liveCount (l1 ++ l2) = liveCount l1 + liveCount l2 := by
  simp [liveCount, List.countP_append]

theorem liveCount_cons (w : Worker) (l : List Worker) :
    liveCount (w :: l) = liveCount l + (if w.pc = .exited then 0 else 1) := by
  by_cases h : w.pc = .exited <;> simp [liveCount, List.countP_cons, Worker.live, h]

theorem liveCount_map_wake (ws : List Worker) : liveCount (ws.map wake) = liveCount ws := by
  induction ws with
  | nil => rfl
  | cons w ws ih =>
    obtain ⟨i, pc⟩ := w
    rw [List.map_cons, liveCount_cons, liveCount_cons, ih]
    cases pc <;> simp [wake]

theorem mem_map_wake (ws : List Worker) (w : Worker) (h : w ∈ ws.map wake) :
    w.pc ≠ .parked ∧ ∃ v ∈ ws, w = v ∨ (v.pc = .parked ∧ w.pc = .stopping) := by
  simp only [List.mem_map] at h
  obtain ⟨v, hv, rfl⟩ := h
  obtain ⟨i, pc⟩ := v
  refine ⟨?_, ⟨i, pc⟩, hv, ?_⟩
  · cases pc <;> simp [wake]
  · cases pc <;> simp [wake]

theorem Trans.inv {s t : Sys} (h : Trans s t) (hs : Inv s) : Inv t := by
  obtain ⟨h1, h2, h3, h4, h5, h6, h7, h8, h9⟩ := hs
  cases h with
  | start M c n l1 l2 i out who =>
    refine ⟨h1, ?_, h3, ?_, ?_, ?_, h7, h8, h9⟩
    · intro w hw hp
      simp only [List.mem_append, List.mem_cons] at hw
      rcases hw with hw | rfl | hw
      · exact h2 w (by simp [hw]) hp
      · cases hp
      · exact h2 w (by simp [hw]) hp
    · simpa [processed, held_append, held_cons_other, Loc.job?, Line.job?] using h4
    · simpa [liveCount_append, liveCount_cons] using h5
    · intro w hw hp
      simp only [List.mem_append, List.mem_cons] at hw
      rcases hw with hw | rfl | hw
      · exact h6 w (by simp [hw]) hp
      · simp at hp
      · exact h6 w (by simp [hw]) hp
  | recv M cap job rest cl sent recvd n l1 l2 i out who =>
    have hnp : ∀ w, w ∈ l1 ∨ w ∈ l2 → w.pc ≠ .parked ∧ w.pc ≠ .stopping ∧ w.pc ≠ .exited := by
      intro w hw
      have hm : w ∈ l1 ++ ⟨i, .ready⟩ :: l2 := by
        rcases hw with hw | hw <;> simp [hw]
      refine ⟨fun hp => ?_, fun hp => ?_, fun hp => ?_⟩
      · exact absurd (h2 w hm hp).1 (by simp)
      · exact absurd (h6 w hm (Or.inl hp)).2 (by simp)
      · exact absurd (h6 w hm (Or.inr hp)).2 (by simp)
    refine ⟨?_, ?_, ?_, ?_, ?_, ?_, h7, h8, h9⟩
    · simp only [List.length_cons] at h1 ⊢
      omega
    · intro w hw hp
      simp only [List.mem_append, List.mem_cons] at hw
      rcases hw with hw | rfl | hw
      · exact absurd hp (hnp w (Or.inl hw)).1
      · cases hp
      · exact absurd hp (hnp w (Or.inr hw)).1
    · simpa using h3
    · rw [List.perm_iff_count] at h4 ⊢
      intro a
      have := h4 a
      simp only [held_append, held_cons_holding, held_cons_other, Loc.job?, List.count_append,
        List.count_cons, List.count_nil] at this ⊢
      omega
    · simpa [liveCount_append, liveCount_cons] using h5
    · intro w hw hp
      simp only [List.mem_append, List.mem_cons] at hw
      rcases hw with hw | rfl | hw
      · rcases hp with hp | hp
        · exact absurd hp (hnp w (Or.inl hw)).2.1
        · exact absurd hp (hnp w (Or.inl hw)).2.2
      · simp at hp
      · rcases hp with hp | hp
        · exact absurd hp (hnp w (Or.inr hw)).2.1
        · exact absurd hp (hnp w (Or.inr hw)).2.2
  | leave M cap sent recvd n l1 l2 i out who =>
    refine ⟨h1, ?_, h3, ?_, ?_, ?_, h7, h8, h9⟩
    · intro w hw hp
      simp only [List.mem_append, List.mem_cons] at hw
      rcases hw with hw | rfl | hw
      · exact h2 w (by simp [hw]) hp
      · cases hp
      · exact h2 w (by simp [hw]) hp
    · simpa [held_append, held_cons_other, Loc.job?] using h4
    · simpa [liveCount_append, liveCount_cons] using h5
    · intro w hw hp
      exact ⟨rfl, rfl⟩
  | park M cap sent recvd n l1 l2 i out who =>
    refine ⟨h1, ?_, h3, ?_, ?_, ?_, h7, h8, h9⟩
    · intro w hw hp
      exact ⟨rfl, rfl⟩
    · simpa [held_append, held_cons_other, Loc.job?] using h4
    · simpa [liveCount_append, liveCount_cons] using h5
    · intro w hw hp
      simp only [List.mem_append, List.mem_cons] at hw
      rcases hw with hw | rfl | hw
      · exact h6 w (by simp [hw]) hp
      · simp at hp
      · exact h6 w (by simp [hw]) hp
  | process M c n l1 l2 i job out who =>
    refine ⟨h1, ?_, h3, ?_, ?_, ?_, h7, h8, h9⟩
    · intro w hw hp
      simp only [List.mem_append, List.mem_cons] at hw
      rcases hw with hw | rfl | hw
      · exact h2 w (by simp [hw]) hp
      · cases hp
      · exact h2 w (by simp [hw]) hp
    · rw [List.perm_iff_count] at h4 ⊢
      intro a
      have := h4 a
      simp only [processed, List.filterMap_append, List.filterMap_cons, List.filterMap_nil,
        Line.job?, held_append, held_cons_holding, held_cons_other, Loc.job?, List.count_append,
        List.count_cons, List.count_nil] at this ⊢
      omega
    · simpa [liveCount_append, liveCount_cons] using h5
    · intro w hw hp
      simp only [List.mem_append, List.mem_cons] at hw
      rcases hw with hw | rfl | hw
      · exact h6 w (by simp [hw]) hp
      · simp at hp
      · exact h6 w (by simp [hw]) hp
  | done M c n l1 l2 i out who =>
    refine ⟨h1, ?_, h3, ?_, ?_, ?_, ?_, ?_, ?_⟩
    · intro w hw hp
      simp only [List.mem_append, List.mem_cons] at hw
      rcases hw with hw | rfl | hw
      · exact h2 w (by simp [hw]) hp
      · cases hp
      · exact h2 w (by simp [hw]) hp
    · simpa [processed, held_append, held_cons_other, Loc.job?, Line.job?] using h4
    · simp only [liveCount_append, liveCount_cons] at h5 ⊢
      simp at h5 ⊢
      omega
    · intro w hw hp
      exact h6 ⟨i, .stopping⟩ (by simp) (Or.inl rfl)
    · intro hr
      by_cases hn : n = 0
      · exact hn
      · simp only [release, hn, if_false] at hr
        have := h7 hr
        simp at this
    · intro hw
      by_cases hn : n = 0
      · cases who <;> simp [release, hn] at hw
      · show 0 < n
        omega
    · intro hc
      cases who with
      | outside => exact absurd (by simp [release]) hc
      | inWait => exact h9 (by simp)
      | returned => exact h9 (by simp)
  | handoff M cap buf sent recvd n l1 l2 i job out who =>
    have hb : buf = [] := (h2 ⟨i, .parked⟩ (by simp) rfl).1
    subst hb
    refine ⟨h1, ?_, ?_, ?_, ?_, ?_, h7, h8, h9⟩
    · intro w hw hp
      exact ⟨rfl, rfl⟩
    · simpa using h3
    · rw [List.perm_iff_count] at h4 ⊢
      intro a
      have := h4 a
      simp only [held_append, held_cons_holding, held_cons_other, Loc.job?, List.count_append,
        List.count_cons, List.count_nil] at this ⊢
      omega
    · simpa [liveCount_append, liveCount_cons] using h5
    · intro w hw hp
      simp only [List.mem_append, List.mem_cons] at hw
      rcases hw with hw | rfl | hw
      · exact absurd (h6 w (by simp [hw]) hp).1 (by simp)
      · simp at hp
      · exact absurd (h6 w (by simp [hw]) hp).1 (by simp)
  | enqueue M cap buf sent recvd n ws job out who hfree hnone =>
    refine ⟨?_, ?_, ?_, h4, h5, ?_, h7, h8, h9⟩
    · simp only [List.length_append, List.length_singleton]
      omega
    · intro w hw hp
      exact absurd hp (hnone w hw)
    · simp only at h3
      simp [← h3]
    · intro w hw hp
      exact absurd (h6 w hw hp).1 (by simp)
  | shutdown M cap buf sent recvd n ws out who =>
    refine ⟨h1, ?_, h3, ?_, ?_, ?_, ?_, ?_, ?_⟩
    · intro w hw hp
      exact absurd hp (mem_map_wake ws w hw).1
    · simpa [held_map_wake] using h4
    · simpa [liveCount_map_wake] using h5
    · intro w hw hp
      obtain ⟨_, v, hv, hv1 | ⟨hv1, _⟩⟩ := mem_map_wake ws w hw
      · subst hv1
        exact absurd (h6 w hv hp).1 (by simp)
      · exact ⟨rfl, (h2 v hv hv1).1⟩
    · intro hr
      by_cases hn : n = 0
      · exact hn
      · simp [hn] at hr
    · intro hw
      by_cases hn : n = 0
      · simp [hn] at hw
      · show 0 < n
        omega
    · intro _
      rfl

/-! ## What never changes, and what only grows -/

theorem Later.refl (s : Sys) : Later s s :=
  ⟨rfl, rfl, rfl, id, ⟨[], by simp⟩, ⟨[], by simp⟩, ⟨[], by simp⟩, Nat.le_refl _, id⟩

theorem Later.trans {s t u : Sys} (h1 : Later s t) (h2 : Later t u) : Later s u := by
  obtain ⟨a1, a2, a3, a4, ⟨e1, a5, a5c⟩, ⟨r1, a6⟩, ⟨o1, a7⟩, a8, a9⟩ := h1
  obtain ⟨b1, b2, b3, b4, ⟨e2, b5, b5c⟩, ⟨r2, b6⟩, ⟨o2, b7⟩, b8, b9⟩ := h2
  refine ⟨b1.trans a1, b2.trans a2, b3.trans a3, fun h => b4 (a4 h), ⟨e1 ++ e2, ?_, ?_⟩,
    ⟨r1 ++ r2, ?_⟩, ⟨o1 ++ o2, ?_⟩, Nat.le_trans b8 a8, fun h => b9 (a9 h)⟩
  · rw [b5, a5, List.append_assoc]
  · intro h
    rw [a5c h, b5c (a4 h)]
    rfl
  · rw [b6, a6, List.append_assoc]
  · rw [b7, a7, List.append_assoc]

theorem map_workerID_wake (ws : List Worker) :
    (ws.map wake).map Worker.workerID = ws.map Worker.workerID := by
  induction ws with
  | nil => rfl
  | cons w ws ih =>
    obtain ⟨i, pc⟩ := w
    simp only [List.map_cons, ih]
    cases pc <;> simp [wake]

theorem release_ne_outside (n : Nat) (who : CallLoc) (h : who ≠ .outside) :
    release n who ≠ .outside := by
  cases who with
  | outside => exact absurd rfl h
  | inWait =>
    by_cases hn : n = 0 <;> simp [release, hn]
  | returned =>
    by_cases hn : n = 0 <;> simp [release, hn]

theorem Trans.later {s t : Sys} (h : Trans s t) : Later s t := by
  cases h with
  | start M c n l1 l2 i out who =>
    exact ⟨rfl, rfl, by simp, id, ⟨[], by simp⟩, ⟨[], by simp⟩, ⟨_, rfl⟩, Nat.le_refl _, id⟩
  | recv M cap job rest cl sent recvd n l1 l2 i out who =>
    exact ⟨rfl, rfl, by simp, id, ⟨[], by simp⟩, ⟨_, rfl⟩, ⟨[], by simp⟩, Nat.le_refl _, id⟩
  | leave M cap sent recvd n l1 l2 i out who =>
    exact ⟨rfl, rfl, by simp, id, ⟨[], by simp⟩, ⟨[], by simp⟩, ⟨[], by simp⟩,
      Nat.le_refl _, id⟩
  | park M cap sent recvd n l1 l2 i out who =>
    exact ⟨rfl, rfl, by simp, id, ⟨[], by simp⟩, ⟨[], by simp⟩, ⟨[], by simp⟩,
      Nat.le_refl _, id⟩
  | process M c n l1 l2 i job out who =>
    exact ⟨rfl, rfl, by simp, id, ⟨[], by simp⟩, ⟨[], by simp⟩, ⟨_, rfl⟩, Nat.le_refl _, id⟩
  | done M c n l1 l2 i out who =>
    exact ⟨rfl, rfl, by simp, id, ⟨[], by simp⟩, ⟨[], by simp⟩, ⟨_, rfl⟩, Nat.le_succ _,
      release_ne_outside n who⟩
  | handoff M cap buf sent recvd n l1 l2 i job out who =>
    exact ⟨rfl, rfl, by simp, by simp, ⟨_, rfl, by simp⟩, ⟨_, rfl⟩, ⟨[], by simp⟩,
      Nat.le_refl _, id⟩
  | enqueue M cap buf sent recvd n ws job out who hfree hnone =>
    exact ⟨rfl, rfl, rfl, by simp, ⟨_, rfl, by simp⟩, ⟨[], by simp⟩, ⟨[], by simp⟩,
      Nat.le_refl _, id⟩
  | shutdown M cap buf sent recvd n ws out who =>
    refine ⟨rfl, rfl, map_workerID_wake ws, by simp, ⟨[], by simp⟩, ⟨[], by simp⟩,
      ⟨[], by simp⟩, Nat.le_refl _, fun _ => ?_⟩
    by_cases hn : n = 0 <;> simp [hn]

theorem step_inv {s t : Sys} {a : Action} (h : step s a = .ok t) (hs : Inv s) : Inv t := by
  rcases step_trans s t a h with rfl | ht
  · exact hs
  · exact ht.inv hs

theorem step_later {s t : Sys} {a : Action} (h : step s a = .ok t) : Later s t := by
  rcases step_trans s t a h with rfl | ht
  · exact Later.refl _
  · exact ht.later

theorem exec_cons_ok {s t : Sys} {a : Action} {as : List Action}
    (h : exec s (a :: as) = .ok t) : ∃ s1, step s a = .ok s1 ∧ exec s1 as = .ok t := by
  simp only [exec] at h
  cases hs : step s a with
  | error p => simp [hs] at h
  | ok s1 => exact ⟨s1, rfl, by simpa [hs] using h⟩

theorem exec_inv : ∀ (as : List Action) (s t : Sys), exec s as = .ok t → Inv s → Inv t
  | [], s, t, h, hs => by
    simp only [exec] at h
    cases h
    exact hs
  | a :: as, s, t, h, hs => by
    obtain ⟨s1, h1, h2⟩ := exec_cons_ok h
    exact exec_inv as s1 t h2 (step_inv h1 hs)

theorem exec_later : ∀ (as : List Action) (s t : Sys), exec s as = .ok t → Later s t
  | [], s, t, h => by
    simp only [exec] at h
    cases h
    exact Later.refl _
  | a :: as, s, t, h => by
    obtain ⟨s1, h1, h2⟩ := exec_cons_ok h
    exact (step_later h1).trans (exec_later as s1 t h2)

/-! ## `Run` in closed form -/

theorem spawn_ok {s : Sys} (i : Nat) (h : s.wp.WG + 1 < wgLimit) :
    spawn s i = .ok { s with
      wp := { s.wp with WG := s.wp.WG + 1 }
      workers := s.workers ++ [{ workerID := i, pc := .started }] } := by
  simp only [spawn, wgAdd, h, if_true]

theorem spawn_panics {s : Sys} (i : Nat) (h : wgLimit ≤ s.wp.WG + 1) :
    spawn s i = .error .negativeWaitGroupCounter := by
  have h1 : ¬ s.wp.WG + 1 < wgLimit := by omega
  simp only [spawn, wgAdd, h1, if_false]

theorem runLoop_ok : ∀ (k i : Nat) (s : Sys), s.wp.WG + k < wgLimit →
    runLoop k i s = .ok { s with
      wp := { s.wp with WG := s.wp.WG + k }, workers := s.workers ++ fresh i k }
  | 0, i, s, _ => by simp [runLoop, fresh]
  | k + 1, i, s, h => by
    rw [runLoop, spawn_ok i (by omega)]
    simp only
    rw [runLoop_ok k (i + 1) _ (by simp only; omega)]
    simp [fresh, List.range'_succ, Nat.add_assoc, Nat.add_comm 1 k]

theorem runLoop_panics : ∀ (k i : Nat) (s : Sys), 1 ≤ k → wgLimit ≤ s.wp.WG + k →
    runLoop k i s = .error .negativeWaitGroupCounter
  | 0, _, _, h, _ => by omega
  | k + 1, i, s, _, h => by
    rw [runLoop]
    by_cases h1 : s.wp.WG + 1 < wgLimit
    · rw [spawn_ok i h1]
      simp only
      exact runLoop_panics k (i + 1) _ (by omega) (by simp only; omega)
    · rw [spawn_panics i (by omega)]

theorem runLoop_zero (i : Nat) (s : Sys) : runLoop 0 i s = .ok s := rfl

theorem Run_ok {s : Sys} (h : s.wp.WG + s.wp.MaxWorkers.toNat < wgLimit) :
    Run s = .ok { s with
      wp := { s.wp with WG := s.wp.WG + s.wp.MaxWorkers.toNat }
      workers := s.workers ++ fresh 0 s.wp.MaxWorkers.toNat } :=
  runLoop_ok _ _ _ h

theorem Run_panics {s : Sys} (h1 : 1 ≤ s.wp.MaxWorkers.toNat)
    (h : wgLimit ≤ s.wp.WG + s.wp.MaxWorkers.toNat) :
    Run s = .error .negativeWaitGroupCounter :=
  runLoop_panics _ _ _ h1 h

theorem Run_inv {s t : Sys} (h : Run s = .ok t) :
    t = { s with
      wp := { s.wp with WG := s.wp.WG + s.wp.MaxWorkers.toNat }
      workers := s.workers ++ fresh 0 s.wp.MaxWorkers.toNat } := by
  by_cases h1 : s.wp.WG + s.wp.MaxWorkers.toNat < wgLimit
  · rw [Run_ok h1] at h
    cases h
    rfl
  · by_cases h0 : 1 ≤ s.wp.MaxWorkers.toNat
    · rw [Run_panics h0 (by omega)] at h
      cases h
    · have hz : s.wp.MaxWorkers.toNat = 0 := by omega
      simp only [Run, hz, runLoop_zero] at h
      cases h
      simp [hz, fresh]

theorem fresh_length (i k : Nat) : (fresh i k).length = k := by
  simp [fresh]

theorem held_fresh (i k : Nat) : held (fresh i k) = [] := by
  simp [held, fresh, List.filterMap_map, Loc.job?]

theorem liveCount_fresh (i k : Nat) : liveCount (fresh i k) = k := by
  simp [liveCount, fresh, List.countP_map, Worker.live]
  rw [List.countP_eq_length.2]
  · simp
  · intro a _
    rfl

theorem mem_fresh {i k : Nat} {w : Worker} (h : w ∈ fresh i k) : w.pc = .started := by
  simp only [fresh, List.mem_map] at h
  obtain ⟨j, _, rfl⟩ := h
  rfl

theorem NewWorkerPool_ok {limit : Nat} {maxWorkers queueSize : Int} {wp : WorkerPool}
    (h : NewWorkerPool limit maxWorkers queueSize = .ok wp) :
    0 ≤ queueSize ∧ queueSize ≤ limit ∧
      wp = ⟨maxWorkers, ⟨queueSize.toNat, [], false, [], []⟩, 0⟩ := by
  unfold NewWorkerPool makechan at h
  by_cases hc : queueSize < 0 ∨ (limit : Int) < queueSize
  · simp [hc] at h
  · simp only [hc, if_false] at h
    cases h
    refine ⟨?_, ?_, rfl⟩ <;> omega

theorem started_eq {limit : Nat} {maxWorkers queueSize : Int} {wp : WorkerPool} {s : Sys}
    (h : NewWorkerPool limit maxWorkers queueSize = .ok wp) (hs : Run (boot wp) = .ok s) :
    s = ⟨⟨maxWorkers, ⟨queueSize.toNat, [], false, [], []⟩, maxWorkers.toNat⟩,
      fresh 0 maxWorkers.toNat, [], .outside⟩ := by
  obtain ⟨_, _, rfl⟩ := NewWorkerPool_ok h
  rw [Run_inv hs]
  simp [boot]

theorem Inv_started {limit : Nat} {maxWorkers queueSize : Int} {wp : WorkerPool} {s : Sys}
    (h : NewWorkerPool limit maxWorkers queueSize = .ok wp) (hs : Run (boot wp) = .ok s) :
    Inv s := by
  rw [started_eq h hs]
  refine ⟨by simp, ?_, by simp, ?_, ?_, ?_, by simp, by simp, by simp⟩
  · intro w hw hp
    simp only at hw
    rw [mem_fresh hw] at hp
    cases hp
  · simp [processed, held_fresh]
  · simp [liveCount_fresh]
  · intro w hw hp
    simp only at hw
    rw [mem_fresh hw] at hp
    simp at hp

/-! ## Further lemmas -/

theorem ShutDown_begun {s t : Sys} (h : (ShutDown s).begun = some t) :
    s.wp.JobQueue.closed = false ∧
      t = { s with
        wp := { s.wp with JobQueue := { s.wp.JobQueue with closed := true } }
        workers := s.workers.map wake
        caller := if s.wp.WG = 0 then .returned else .inWait } := by
  obtain ⟨⟨M, ⟨cap, buf, cl, sent, recvd⟩, n⟩, ws, out, who⟩ := s
  unfold ShutDown closechan at h
  cases cl with
  | true => simp [CallResult.begun] at h
  | false =>
    simp only [Bool.false_eq_true, if_false] at h
    refine ⟨rfl, ?_⟩
    by_cases hn : n = 0
    · simp only [hn, if_true, CallResult.begun, Option.some.injEq] at h
      subst h
      simp [hn]
    · simp only [hn, if_false, CallResult.begun, Option.some.injEq] at h
      subst h
      simp [hn]

/-- `ShutDown` returns at once only on a counter of zero, and it records the
return. -/
theorem ShutDown_returned {s t : Sys} (h : ShutDown s = .returned t) :
    t.caller = .returned ∧ t.wp.WG = 0 ∧ s.wp.WG = 0 := by
  have hb : (ShutDown s).begun = some t := by rw [h]; rfl
  obtain ⟨_, ht⟩ := ShutDown_begun hb
  by_cases hn : s.wp.WG = 0
  · rw [ht]
    simp [hn]
  · exfalso
    unfold ShutDown at h
    cases hc : closechan s with
    | error p => simp [hc] at h
    | ok s1 =>
      have hw : s1.wp.WG = s.wp.WG := by
        unfold closechan at hc
        by_cases hcl : s.wp.JobQueue.closed = true
        · simp [hcl] at hc
        · simp only [hcl, if_false] at hc
          cases hc
          rfl
      simp [hc, hw, hn] at h

/-- `ShutDown` blocks in `Wait` exactly on a counter that is not zero. -/
theorem ShutDown_waiting {s t : Sys} (h : ShutDown s = .waiting t) :
    t.caller = .inWait ∧ 0 < t.wp.WG := by
  have hb : (ShutDown s).begun = some t := by rw [h]; rfl
  obtain ⟨_, ht⟩ := ShutDown_begun hb
  by_cases hn : s.wp.WG = 0
  · exfalso
    unfold ShutDown at h
    cases hc : closechan s with
    | error p => simp [hc] at h
    | ok s1 =>
      have hw : s1.wp.WG = s.wp.WG := by
        unfold closechan at hc
        by_cases hcl : s.wp.JobQueue.closed = true
        · simp [hcl] at hc
        · simp only [hcl, if_false] at hc
          cases hc
          rfl
      simp [hc, hw, hn] at h
  · rw [ht]
    simp only [hn, if_false]
    exact ⟨trivial, Nat.pos_of_ne_zero hn⟩

theorem liveCount_zero {ws : List Worker} (h : liveCount ws = 0) :
    ∀ w ∈ ws, w.pc = .exited := by
  intro w hw
  simp only [liveCount, List.countP_eq_zero] at h
  have := h w hw
  simpa [Worker.live] using this

theorem held_exited {ws : List Worker} (h : ∀ w ∈ ws, w.pc = .exited) : held ws = [] := by
  simp only [held, List.filterMap_eq_nil_iff]
  intro w hw
  rw [h w hw]
  rfl

theorem held_length_le (ws : List Worker) : (held ws).length ≤ ws.length := by
  simp only [held]
  exact List.length_filterMap_le _ _

theorem held_length_lt {ws : List Worker} {w : Worker} (hw : w ∈ ws) (hp : w.pc = .parked) :
    (held ws).length < ws.length := by
  obtain ⟨l1, l2, rfl⟩ := List.append_of_mem hw
  obtain ⟨i, pc⟩ := w
  simp only at hp
  subst hp
  have h1 := held_length_le l1
  have h2 := held_length_le l2
  simp only [held_append, held_cons_other, Loc.job?, List.length_append, List.length_cons]
  omega

theorem Later.length_eq {s t : Sys} (h : Later s t) : t.workers.length = s.workers.length := by
  have := congrArg List.length h.ids_eq
  simpa using this

theorem started_length {limit : Nat} {maxWorkers queueSize : Int} {wp : WorkerPool} {s : Sys}
    (h : NewWorkerPool limit maxWorkers queueSize = .ok wp) (hs : Run (boot wp) = .ok s) :
    s.workers.length = maxWorkers.toNat := by
  rw [started_eq h hs]
  simp [fresh_length]

theorem processed_append (o1 o2 : List Line) :
    processed (o1 ++ o2) = processed o1 ++ processed o2 := by
  simp [processed, List.filterMap_append]

/-- A step of a goroutine that already exists commutes with a later iteration
of the loop of `Run` (while `ShutDown` has not been called): running the
iteration first gives the same state.  So an execution in which spawned workers
run between the iterations ends in the state that the whole loop followed by
those steps gives. -/
theorem workerStep_spawn (s t s1 : Sys) (g i : Nat) (hg : g < s.workers.length)
    (hout : s.caller = .outside) (h : workerStep s g = .ok t) (hs : spawn s i = .ok s1) :
    ∃ t1, spawn t i = .ok t1 ∧ workerStep s1 g = .ok t1 := by
  have hlim : s.wp.WG + 1 < wgLimit := by
    by_cases hl : s.wp.WG + 1 < wgLimit
    · exact hl
    · rw [spawn_panics i (by omega)] at hs
      cases hs
  rw [spawn_ok i hlim] at hs
  cases hs
  have hle : t.wp.WG ≤ s.wp.WG := by
    have hst : step s (.worker g) = .ok t := h
    exact (step_later hst).wg_le
  refine ⟨_, spawn_ok i (by omega), ?_⟩
  obtain ⟨⟨M, ⟨cap, buf, cl, sent, recvd⟩, n⟩, ws, out, who⟩ := s
  simp only at hg hout
  subst hout
  have hget : (ws ++ [(⟨i, Loc.started⟩ : Worker)])[g]? = ws[g]? :=
    List.getElem?_append_left hg
  have hset : ∀ w : Worker,
      (ws ++ [(⟨i, Loc.started⟩ : Worker)]).set g w = ws.set g w ++ [⟨i, Loc.started⟩] :=
    fun w => List.set_append_left _ _ hg
  unfold workerStep at h ⊢
  simp only [hget]
  cases hw : ws[g]? with
  | none =>
    simp only [hw] at h ⊢
    cases h
    rfl
  | some w =>
    obtain ⟨j, pc⟩ := w
    simp only [hw] at h ⊢
    cases pc with
    | started =>
      cases h
      simp only [hset]
    | ready =>
      simp only at h ⊢
      cases buf with
      | cons job rest =>
        cases h
        simp only [hset]
      | nil =>
        cases cl with
        | true =>
          simp only [if_true] at h ⊢
          cases h
          simp only [hset]
        | false =>
          simp only [Bool.false_eq_true, if_false] at h ⊢
          cases h
          simp only [hset]
    | parked =>
      cases h
      rfl
    | holding job =>
      cases h
      simp only [hset]
    | stopping =>
      cases n with
      | zero => simp [wgDone] at h
      | succ n =>
        simp only [wgDone] at h ⊢
        cases h
        simp [hset, release]
    | exited =>
      cases h
      rfl

/-! ## The shutdown can complete -/

theorem exec_append : ∀ (as bs : List Action) (s t : Sys), exec s as = .ok t →
    exec s (as ++ bs) = exec t bs
  | [], bs, s, t, h => by
    simp only [exec] at h
    cases h
    rfl
  | a :: as, bs, s, t, h => by
    obtain ⟨s1, h1, h2⟩ := exec_cons_ok h
    simp only [List.cons_append, exec, h1]
    exact exec_append as bs s1 t h2

theorem exec_replicate_succ (s s1 : Sys) (a : Action) (n : Nat) (h : step s a = .ok s1) :
    exec s (List.replicate (n + 1) a) = exec s1 (List.replicate n a) := by
  simp only [List.replicate_succ, exec, h]

/-- After the close, a worker that steps alone returns within `stepsLeft`
steps, lowering the wait-group counter by one. -/
theorem run_to_exit : ∀ (n : Nat) (s : Sys) (g : Nat) (w : Worker), Inv s →
    s.wp.JobQueue.closed = true → s.workers[g]? = some w → w.pc ≠ .exited →
    stepsLeft w.pc s.wp.JobQueue.buf.length = n →
    ∃ t, exec s (List.replicate n (.worker g)) = .ok t ∧ t.wp.WG + 1 = s.wp.WG := by
  intro n
  induction n with
  | zero =>
    intro s g w hI hcl hw hne hn
    obtain ⟨i, pc⟩ := w
    cases pc with
    | parked =>
      have := (hI.parked_ok _ (List.getElem?_mem hw) rfl).2
      rw [hcl] at this
      cases this
    | exited => exact absurd rfl hne
    | started => simp [stepsLeft] at hn
    | ready => simp [stepsLeft] at hn
    | holding job => simp [stepsLeft] at hn
    | stopping => simp [stepsLeft] at hn
  | succ n ih =>
    intro s g w hI hcl hw hne hn
    have hlt : g < s.workers.length := (List.getElem?_eq_some.1 hw).1
    have next : ∀ (s1 : Sys) (w1 : Worker), workerStep s g = .ok s1 →
        s1.workers[g]? = some w1 → w1.pc ≠ .exited →
        stepsLeft w1.pc s1.wp.JobQueue.buf.length = n → s1.wp.WG = s.wp.WG →
        ∃ t, exec s (List.replicate (n + 1) (.worker g)) = .ok t ∧ t.wp.WG + 1 = s.wp.WG := by
      intro s1 w1 hstep hw1 hne1 hn1 hwg
      have hstep1 : step s (.worker g) = .ok s1 := hstep
      obtain ⟨t, ht, htw⟩ := ih s1 g w1 (step_inv hstep1 hI)
        ((step_later hstep1).closed_mono hcl) hw1 hne1 hn1
      exact ⟨t, by rw [exec_replicate_succ s s1 _ n hstep1, ht], by rw [htw, hwg]⟩
    obtain ⟨i, pc⟩ := w
    cases pc with
    | parked =>
      have := (hI.parked_ok _ (List.getElem?_mem hw) rfl).2
      rw [hcl] at this
      cases this
    | exited => exact absurd rfl hne
    | started =>
      simp only [stepsLeft] at hn
      refine next { s with
          workers := s.workers.set g ⟨i, .ready⟩
          out := s.out ++ [.workerStarted i] } ⟨i, .ready⟩
        (by simp only [workerStep, hw]) ?_ (by simp) ?_ rfl
      · simp only [List.getElem?_set_self hlt]
      · simp only [stepsLeft]
        omega
    | holding job =>
      simp only [stepsLeft] at hn
      refine next { s with
          workers := s.workers.set g ⟨i, .ready⟩
          out := s.out ++ [.processing i job] } ⟨i, .ready⟩
        (by simp only [workerStep, hw]) ?_ (by simp) ?_ rfl
      · simp only [List.getElem?_set_self hlt]
      · simp only [stepsLeft]
        omega
    | ready =>
      simp only [stepsLeft] at hn
      cases hb : s.wp.JobQueue.buf with
      | nil =>
        refine next { s with workers := s.workers.set g ⟨i, .stopping⟩ } ⟨i, .stopping⟩
          (by simp only [workerStep, hw, hb, hcl, if_true]) ?_ (by simp) ?_ rfl
        · simp only [List.getElem?_set_self hlt]
        · rw [hb] at hn
          simp only [List.length_nil] at hn
          simp only [stepsLeft]
          omega
      | cons job rest =>
        refine next { s with
            wp := { s.wp with JobQueue := { s.wp.JobQueue with
              buf := rest
              recvd := s.wp.JobQueue.recvd ++ [job] } }
            workers := s.workers.set g ⟨i, .holding job⟩ } ⟨i, .holding job⟩
          (by simp only [workerStep, hw, hb]) ?_ (by simp) ?_ rfl
        · simp only [List.getElem?_set_self hlt]
        · rw [hb] at hn
          simp only [List.length_cons] at hn
          simp only [stepsLeft]
          omega
    | stopping =>
      simp only [stepsLeft] at hn
      have hn0 : n = 0 := by omega
      subst hn0
      have hpos : 0 < liveCount s.workers := by
        simp only [liveCount, List.countP_pos_iff]
        exact ⟨_, List.getElem?_mem hw, by simp [Worker.live]⟩
      have hwg := hI.wg_ok
      cases hk : s.wp.WG with
      | zero => omega
      | succ k =>
        refine ⟨{ s with
          wp := { s.wp with WG := k }
          workers := s.workers.set g ⟨i, .exited⟩
          out := s.out ++ [.workerStopped i]
          caller := release k s.caller }, ?_, rfl⟩
        simp only [List.replicate_succ, List.replicate_zero, exec, step, workerStep, hw, wgDone,
          hk]

/-- In a state of a started pool in which `ShutDown` has been entered, the
call has returned exactly when the wait-group counter is zero. -/
theorem returned_iff_zero {s : Sys} (hI : Inv s) (hc : s.caller ≠ .outside) :
    s.caller = .returned ↔ s.wp.WG = 0 := by
  constructor
  · exact hI.ret_ok
  · intro hz
    cases hcl : s.caller with
    | outside => exact absurd hcl hc
    | inWait =>
      have := hI.wait_ok hcl
      omega
    | returned => rfl

/-- Progress of the shutdown: from every state of a started pool in which
`ShutDown` has closed the queue there is a schedule, of worker steps only, at
whose end the call of `ShutDown` has returned. -/
theorem can_finish : ∀ (k : Nat) (s : Sys), Inv s → s.wp.JobQueue.closed = true →
    s.caller ≠ .outside → s.wp.WG = k →
    ∃ acts t, exec s acts = .ok t ∧ t.caller = .returned := by
  intro k
  induction k with
  | zero =>
    intro s hI _ hc hk
    exact ⟨[], s, rfl, (returned_iff_zero hI hc).2 hk⟩
  | succ k ih =>
    intro s hI hcl hc hk
    have hpos : 0 < liveCount s.workers := by
      rw [← hI.wg_ok, hk]
      omega
    simp only [liveCount, List.countP_pos_iff] at hpos
    obtain ⟨w, hw, hlive⟩ := hpos
    obtain ⟨g, hg⟩ := List.mem_iff_getElem?.1 hw
    have hne : w.pc ≠ .exited := by simpa [Worker.live] using hlive
    obtain ⟨t, ht, htw⟩ := run_to_exit _ s g w hI hcl hg hne rfl
    obtain ⟨acts, u, hu, hret⟩ := ih t (exec_inv _ _ _ ht hI)
      ((exec_later _ _ _ ht).closed_mono hcl) ((exec_later _ _ _ ht).caller_mono hc) (by omega)
    exact ⟨_ ++ acts, u, by rw [exec_append _ acts s t ht, hu], hret⟩

/-! ## Claims -/

/-- C2 (graceful drain).  Take a pool built with at least one worker and
started with `Run`, let it run under any schedule, and invoke `ShutDown` in a
state `s0` (with the jobs `s0.wp.JobQueue.buf` queued); `s1` is the state in
which `ShutDown` has closed the queue and has either returned at once or
blocked in `Wait`.  There are executions in which that call of `ShutDown`
returns, and in every execution in which it returns (a state `s2` whose caller
has left `ShutDown`): the lines printed since the invocation process exactly
the jobs that were queued together with those a worker was holding at that
moment, each once (as multisets); the queue is empty; every one of the
`MaxWorkers` workers has returned; and the wait-group counter is zero. -/
theorem shutdown_drains (limit : Nat) (maxWorkers queueSize : Int) (wp : WorkerPool)
    (acts0 : List Action) (sA s0 s1 : Sys)
    (hW : 1 ≤ maxWorkers)
    (hnew : NewWorkerPool limit maxWorkers queueSize = .ok wp)
    (hstart : Run (boot wp) = .ok sA)
    (hrun : exec sA acts0 = .ok s0)
    (hshut : (ShutDown s0).begun = some s1) :
    (∃ acts s2, exec s1 acts = .ok s2 ∧ s2.caller = .returned) ∧
    ∀ (acts : List Action) (s2 : Sys), exec s1 acts = .ok s2 → s2.caller = .returned →
      (∃ new, s2.out = s0.out ++ new ∧
          (processed new).Perm (held s0.workers ++ s0.wp.JobQueue.buf)) ∧
        s2.wp.JobQueue.buf = [] ∧
        (∀ w ∈ s2.workers, w.pc = .exited) ∧
        s2.workers.length = maxWorkers.toNat ∧
        s2.wp.WG = 0 := by
  have hIA : Inv sA := Inv_started hnew hstart
  have hI0 : Inv s0 := exec_inv acts0 _ _ hrun hIA
  have hT1 := ShutDown_trans s0 s1 hshut
  have hI1 : Inv s1 := hT1.inv hI0
  have hL01 : Later s0 s1 := hT1.later
  have hL0 : Later sA s0 := exec_later acts0 _ _ hrun
  obtain ⟨hop, hs1⟩ := ShutDown_begun hshut
  have hcl1 : s1.wp.JobQueue.closed = true := by rw [hs1]
  have hc1 : s1.caller ≠ .outside := by
    rw [hs1]
    by_cases hn : s0.wp.WG = 0 <;> simp [hn]
  refine ⟨can_finish _ s1 hI1 hcl1 hc1 rfl, ?_⟩
  intro acts s2 hexec hret
  have hI2 : Inv s2 := exec_inv acts _ _ hexec hI1
  have hL12 : Later s1 s2 := exec_later acts _ _ hexec
  -- the call has returned, so the counter is zero
  have hwait : s2.wp.WG = 0 := hI2.ret_ok hret
  -- every worker has returned
  have hlive : liveCount s2.workers = 0 := by
    rw [← hI2.wg_ok]
    exact hwait
  have hall := liveCount_zero hlive
  -- there is at least one worker
  have hlen : s2.workers.length = maxWorkers.toNat := by
    rw [hL12.length_eq, hL01.length_eq, hL0.length_eq, started_length hnew hstart]
  have hbuf : s2.wp.JobQueue.buf = [] := by
    cases hws : s2.workers with
    | nil =>
      rw [hws] at hlen
      simp only [List.length_nil] at hlen
      omega
    | cons w ws =>
      exact (hI2.gone_ok w (by simp [hws]) (Or.inr (hall w (by simp [hws])))).2
  -- nothing was sent after the close
  obtain ⟨e, he, hec⟩ := hL12.sent_grows
  have hsent : s2.wp.JobQueue.sent = s0.wp.JobQueue.sent := by
    rw [he, hec hcl1, hs1]
    simp
  obtain ⟨o2, ho2⟩ := hL12.out_grows
  have ho1nil : s1.out = s0.out := by rw [hs1]
  refine ⟨⟨o2, by rw [ho2, ho1nil], ?_⟩, hbuf, hall, hlen, hwait⟩
  have h4 := hI2.once
  have h3 := hI2.fifo
  rw [held_exited hall, List.append_nil, ho2, ho1nil, processed_append] at h4
  rw [hbuf, List.append_nil, hsent, ← hI0.fifo] at h3
  rw [h3] at h4
  have h0 := hI0.once
  rw [List.perm_iff_count] at h4 h0 ⊢
  intro a
  have := h4 a
  have := h0 a
  simp only [List.count_append] at *
  omega

theorem selectnbsend_closed {s : Sys} (h : s.wp.JobQueue.closed = true) (job : Job)
    (pick : Nat) : selectnbsend s job pick = .panics .sendOnClosedChannel := by
  simp [selectnbsend, h]

theorem selectnbsend_handoff {s : Sys} (h : s.wp.JobQueue.closed = false) (job : Job)
    (pick : Nat) {w : Worker} (hw : w ∈ s.workers) (hp : w.pc = .parked) :
    ∃ t, selectnbsend s job pick = .sent t ∧
      t.wp.JobQueue.sent = s.wp.JobQueue.sent ++ [job] ∧
      t.wp.JobQueue.buf = s.wp.JobQueue.buf ∧
      (held t.workers).Perm (job :: held s.workers) := by
  cases hd : deliver job pick s.workers with
  | none => exact absurd hp ((deliver_none job pick s.workers).1 hd w hw)
  | some ws1 =>
    obtain ⟨l1, i, l2, e1, e2⟩ := deliver_some job pick s.workers ws1 hd
    have hs : selectnbsend s job pick = .sent { s with
        workers := ws1
        wp := { s.wp with JobQueue := { s.wp.JobQueue with
          sent := s.wp.JobQueue.sent ++ [job]
          recvd := s.wp.JobQueue.recvd ++ [job] } } } := by
      simp only [selectnbsend, h, hd, Bool.false_eq_true, if_false]
    refine ⟨_, hs, rfl, rfl, ?_⟩
    simp only [e1, e2, held_append, held_cons_holding, held_cons_other, Loc.job?]
    exact List.perm_middle

theorem selectnbsend_enqueue {s : Sys} (h : s.wp.JobQueue.closed = false) (job : Job)
    (pick : Nat) (hnone : ∀ w ∈ s.workers, w.pc ≠ .parked)
    (hfree : s.wp.JobQueue.buf.length < s.wp.JobQueue.cap) :
    selectnbsend s job pick = .sent { s with
      wp := { s.wp with JobQueue := { s.wp.JobQueue with
        buf := s.wp.JobQueue.buf ++ [job]
        sent := s.wp.JobQueue.sent ++ [job] } } } := by
  have hd := (deliver_none job pick s.workers).2 hnone
  simp only [selectnbsend, h, hd, hfree, Bool.false_eq_true, if_false, if_true]

theorem selectnbsend_full {s : Sys} (h : s.wp.JobQueue.closed = false) (job : Job)
    (pick : Nat) (hnone : ∀ w ∈ s.workers, w.pc ≠ .parked)
    (hfull : ¬ s.wp.JobQueue.buf.length < s.wp.JobQueue.cap) :
    selectnbsend s job pick = .full := by
  have hd := (deliver_none job pick s.workers).2 hnone
  simp only [selectnbsend, h, hd, hfull, Bool.false_eq_true, if_false]

/-- C1 (admission decision).  On an open queue of capacity `cap` holding
`buf.length` jobs, the non-blocking send of `SendNotification` for any job:
is accepted if `buf.length < cap` or some worker is parked in the receive (the
job is then recorded as sent and is in flight: buffered, or handed to a worker);
takes the `default` branch, changing nothing, if `buf.length = cap` and no
worker is parked.  In both cases the call yields its result in the same step:
a `SendResult` has no outcome in which the sender is parked. -/
theorem submit_admission (s : Sys) (job : Job) (pick : Nat)
    (hopen : s.wp.JobQueue.closed = false) :
    ((s.wp.JobQueue.buf.length < s.wp.JobQueue.cap ∨ ∃ w ∈ s.workers, w.pc = .parked) →
      ∃ t, selectnbsend s job pick = .sent t ∧
        t.wp.JobQueue.sent = s.wp.JobQueue.sent ++ [job] ∧
        t.inFlight = s.inFlight + 1) ∧
    ((s.wp.JobQueue.buf.length = s.wp.JobQueue.cap ∧ ∀ w ∈ s.workers, w.pc ≠ .parked) →
      selectnbsend s job pick = .full) := by
  constructor
  · intro h
    by_cases hp : ∃ w ∈ s.workers, w.pc = .parked
    · obtain ⟨w, hw, hwp⟩ := hp
      obtain ⟨t, h1, h2, h3, h4⟩ := selectnbsend_handoff hopen job pick hw hwp
      refine ⟨t, h1, h2, ?_⟩
      simp only [Sys.inFlight, h3, h4.length_eq, List.length_cons]
      omega
    · have hnone : ∀ w ∈ s.workers, w.pc ≠ .parked := fun w hw hwp => hp ⟨w, hw, hwp⟩
      have hfree : s.wp.JobQueue.buf.length < s.wp.JobQueue.cap := by
        rcases h with h | h
        · exact h
        · exact absurd h hp
      refine ⟨_, selectnbsend_enqueue hopen job pick hnone hfree, rfl, ?_⟩
      simp only [Sys.inFlight, List.length_append, List.length_singleton]
      omega
  · rintro ⟨hfull, hnone⟩
    exact selectnbsend_full hopen job pick hnone (by omega)

/-- C10, as amended (gateway outcomes on an open queue).  While the queue is
open, a request that parses yields a job whose type is the request's and whose
ID is the rendered clock reading, and the handler answers in exactly one of two
ways: the send was accepted, and the answer is 202 "Request queued" with the
`job_id` of the job now recorded as sent; or the send found the queue full, and
the answer is 503 with the state unchanged.  In any state a request that fails
to parse is answered 400 with the state unchanged. -/
theorem sendNotification_outcomes (s : Sys) (now : Int) (pick : Nat) :
    (∀ req : Req, s.wp.JobQueue.closed = false →
      (mkJob req now).Type_ = req.Type_ ∧
      ((∃ t, selectnbsend s (mkJob req now) pick = .sent t ∧
          SendNotification s (.ok req) now pick =
            .responded ⟨202, [("message", "Request queued"), ("job_id", (mkJob req now).ID)]⟩ t ∧
          t.wp.JobQueue.sent = s.wp.JobQueue.sent ++ [mkJob req now]) ∨
        (selectnbsend s (mkJob req now) pick = .full ∧
          SendNotification s (.ok req) now pick =
            .responded ⟨503, [("error", "Server is busy, too many request")]⟩ s))) ∧
    (∀ err : String, SendNotification s (.error err) now pick =
      .responded ⟨400, [("error", err)]⟩ s) := by
  refine ⟨fun req hopen => ⟨rfl, ?_⟩, fun err => rfl⟩
  by_cases hp : ∃ w ∈ s.workers, w.pc = .parked
  · obtain ⟨w, hw, hwp⟩ := hp
    obtain ⟨t, h1, h2, _, _⟩ := selectnbsend_handoff hopen (mkJob req now) pick hw hwp
    refine Or.inl ⟨t, h1, ?_, h2⟩
    simp only [mkJob] at h1
    simp only [SendNotification, h1, mkJob]
  · have hnone : ∀ w ∈ s.workers, w.pc ≠ .parked := fun w hw hwp => hp ⟨w, hw, hwp⟩
    by_cases hfree : s.wp.JobQueue.buf.length < s.wp.JobQueue.cap
    · have h1 := selectnbsend_enqueue hopen (mkJob req now) pick hnone hfree
      refine Or.inl ⟨_, h1, ?_, rfl⟩
      simp only [mkJob] at h1
      simp only [SendNotification, h1, mkJob]
    · have h1 := selectnbsend_full hopen (mkJob req now) pick hnone hfree
      refine Or.inr ⟨h1, ?_⟩
      simp only [mkJob] at h1
      simp only [SendNotification, h1]

/-- C5 (no admission after shutdown began).  Take a started pool, any
schedule, and a `ShutDown` that has closed the queue; let the system run on
under any schedule (further submissions included) to a state `t`.  Then every
submission in `t` that reaches the send fails at once with the panic "send on
closed channel" and leaves the state, hence the queue, as it was; no job has
been recorded as sent since the shutdown began; and the jobs processed so far
are, with multiplicity, among the jobs accepted before it began. -/
theorem closed_rejects (limit : Nat) (maxWorkers queueSize : Int) (wp : WorkerPool)
    (acts0 acts : List Action) (sA s0 s1 t : Sys)
    (hnew : NewWorkerPool limit maxWorkers queueSize = .ok wp)
    (hstart : Run (boot wp) = .ok sA)
    (hrun : exec sA acts0 = .ok s0)
    (hshut : (ShutDown s0).begun = some s1)
    (hexec : exec s1 acts = .ok t) :
    (∀ (req : Req) (now : Int) (pick : Nat),
      SendNotification t (.ok req) now pick = .panicked .sendOnClosedChannel t ∧
      step t (.request (.ok req) now pick) = .ok t) ∧
    t.wp.JobQueue.sent = s0.wp.JobQueue.sent ∧
    (processed t.out).Subperm s0.wp.JobQueue.sent := by
  have hI0 : Inv s0 := exec_inv acts0 _ _ hrun (Inv_started hnew hstart)
  have hT1 := ShutDown_trans s0 s1 hshut
  have hI2 : Inv t := exec_inv acts _ _ hexec (hT1.inv hI0)
  have hL12 : Later s1 t := exec_later acts _ _ hexec
  obtain ⟨_, hs1⟩ := ShutDown_begun hshut
  have hcl1 : s1.wp.JobQueue.closed = true := by rw [hs1]
  have hcl : t.wp.JobQueue.closed = true := hL12.closed_mono hcl1
  obtain ⟨e, he, hec⟩ := hL12.sent_grows
  have hsent : t.wp.JobQueue.sent = s0.wp.JobQueue.sent := by
    rw [he, hec hcl1, hs1]
    simp
  have hpanic : ∀ (req : Req) (now : Int) (pick : Nat),
      SendNotification t (.ok req) now pick = .panicked .sendOnClosedChannel t := by
    intro req now pick
    simp only [SendNotification, selectnbsend_closed hcl]
  refine ⟨fun req now pick => ⟨hpanic req now pick, ?_⟩, hsent, ?_⟩
  · simp only [step, hpanic, HandlerResult.state]
  · rw [← hsent, ← hI2.fifo]
    have h1 : (processed t.out).Subperm (processed t.out ++ held t.workers) :=
      (List.sublist_append_left _ _).subperm
    have h2 : (processed t.out ++ held t.workers).Subperm t.wp.JobQueue.recvd :=
      hI2.once.subperm
    have h3 : t.wp.JobQueue.recvd.Subperm (t.wp.JobQueue.recvd ++ t.wp.JobQueue.buf) :=
      (List.sublist_append_left _ _).subperm
    exact (h1.trans h2).trans h3

theorem submit_all : ∀ (reqs : List (Req × Int × Nat)) (s : Sys),
    s.wp.JobQueue.closed = false → (∀ w ∈ s.workers, w.pc ≠ .parked) →
    s.wp.JobQueue.buf.length + reqs.length ≤ s.wp.JobQueue.cap →
    exec s (reqs.map toAction) = .ok { s with
      wp := { s.wp with JobQueue := { s.wp.JobQueue with
        buf := s.wp.JobQueue.buf ++ jobsOf reqs
        sent := s.wp.JobQueue.sent ++ jobsOf reqs } } }
  | [], s, _, _, _ => by simp [exec, jobsOf]
  | r :: reqs, s, hopen, hnone, hk => by
    simp only [List.length_cons] at hk
    have h1 := selectnbsend_enqueue hopen (mkJob r.1 r.2.1) r.2.2 hnone (by omega)
    simp only [mkJob] at h1
    simp only [List.map_cons, exec, toAction, step, SendNotification, h1, HandlerResult.state]
    have ih := submit_all reqs { s with
      wp := { s.wp with JobQueue := { s.wp.JobQueue with
        buf := s.wp.JobQueue.buf ++ [⟨toString r.2.1, r.1.Type_⟩]
        sent := s.wp.JobQueue.sent ++ [⟨toString r.2.1, r.1.Type_⟩] } } } hopen hnone
      (by simp only [List.length_append, List.length_singleton]; omega)
    refine ih.trans ?_
    simp [jobsOf, mkJob]

/-- C8 (FIFO order).  In a started pool whose queue is open and empty and in
which no worker is parked in the receive, let a producer submit `k` jobs one
after another with `k` at most the capacity, no worker taking a step
meanwhile.  All are accepted and the buffer holds them in submission order.
Under any schedule that follows, the jobs received from the channel since then
come in that order: the `i`-th one received is the `i`-th one accepted. -/
theorem fifo_order (limit : Nat) (maxWorkers queueSize : Int) (wp : WorkerPool)
    (acts0 : List Action) (sA s0 : Sys) (reqs : List (Req × Int × Nat))
    (hnew : NewWorkerPool limit maxWorkers queueSize = .ok wp)
    (hstart : Run (boot wp) = .ok sA)
    (hrun : exec sA acts0 = .ok s0)
    (hopen : s0.wp.JobQueue.closed = false)
    (hempty : s0.wp.JobQueue.buf = [])
    (hidle : ∀ w ∈ s0.workers, w.pc ≠ .parked)
    (hk : reqs.length ≤ s0.wp.JobQueue.cap) :
    ∃ s1, exec s0 (reqs.map toAction) = .ok s1 ∧
      s1.wp.JobQueue.buf = jobsOf reqs ∧
      s1.wp.JobQueue.sent = s0.wp.JobQueue.sent ++ jobsOf reqs ∧
      ∀ (acts : List Action) (s2 : Sys), exec s1 acts = .ok s2 →
        ∃ d, s2.wp.JobQueue.recvd = s1.wp.JobQueue.recvd ++ d ∧
          ∀ i, i < d.length → i < (jobsOf reqs).length → d[i]? = (jobsOf reqs)[i]? := by
  have hI0 : Inv s0 := exec_inv acts0 _ _ hrun (Inv_started hnew hstart)
  have h1 := submit_all reqs s0 hopen hidle (by rw [hempty]; simpa using hk)
  refine ⟨_, h1, by simp [hempty], rfl, ?_⟩
  intro acts s2 h2
  have hI1 := exec_inv _ _ _ h1 hI0
  have hI2 := exec_inv _ _ _ h2 hI1
  have hL := exec_later _ _ _ h2
  obtain ⟨d, hd⟩ := hL.recvd_grows
  obtain ⟨e, he, _⟩ := hL.sent_grows
  refine ⟨d, hd, ?_⟩
  intro i hi1 hi2
  have hf2 := hI2.fifo
  have hf1 := hI1.fifo
  rw [hd, he, ← hf1, List.append_assoc, List.append_assoc] at hf2
  have hcancel := List.append_cancel_left hf2
  simp only [hempty, List.nil_append] at hcancel
  have e1 : (d ++ s2.wp.JobQueue.buf)[i]? = d[i]? := List.getElem?_append_left hi1
  have e2 : (jobsOf reqs ++ e)[i]? = (jobsOf reqs)[i]? := List.getElem?_append_left hi2
  rw [← e1, ← e2, hcancel]

/-- C9 (in-flight bound).  In every state reachable from a pool built with
queue capacity `queueSize`, `maxWorkers` workers and one call of `Run`, under
any schedule of worker steps, submissions and a call of `ShutDown`: at most
`queueSize` jobs are queued and at most `queueSize + maxWorkers` are in flight
(queued or held by a worker).  When that many are in flight, a further
submission is not accepted: on the open queue it is answered 503 with the state
unchanged (after the queue was closed it fails with the panic of the send). -/
theorem inflight_bound (limit : Nat) (maxWorkers queueSize : Int) (wp : WorkerPool)
    (acts : List Action) (sA s : Sys)
    (hnew : NewWorkerPool limit maxWorkers queueSize = .ok wp)
    (hstart : Run (boot wp) = .ok sA)
    (hrun : exec sA acts = .ok s) :
    s.queued ≤ queueSize.toNat ∧
    s.inFlight ≤ queueSize.toNat + maxWorkers.toNat ∧
    (s.inFlight = queueSize.toNat + maxWorkers.toNat →
      ∀ (req : Req) (now : Int) (pick : Nat),
        (s.wp.JobQueue.closed = false →
          SendNotification s (.ok req) now pick =
            .responded ⟨503, [("error", "Server is busy, too many request")]⟩ s) ∧
        (s.wp.JobQueue.closed = true →
          SendNotification s (.ok req) now pick = .panicked .sendOnClosedChannel s)) := by
  have hI : Inv s := exec_inv acts _ _ hrun (Inv_started hnew hstart)
  have hL := exec_later acts _ _ hrun
  have hlen : s.workers.length = maxWorkers.toNat := by
    rw [hL.length_eq, started_length hnew hstart]
  have hcap : s.wp.JobQueue.cap = queueSize.toNat := by
    rw [hL.cap_eq, started_eq hnew hstart]
  have hq := hI.cap_ok
  have hh := held_length_le s.workers
  refine ⟨by simp only [Sys.queued]; omega, by simp only [Sys.inFlight]; omega, ?_⟩
  intro hsat req now pick
  simp only [Sys.inFlight] at hsat
  constructor
  · intro hopen
    have hnone : ∀ w ∈ s.workers, w.pc ≠ .parked := by
      intro w hw hp
      have := held_length_lt hw hp
      omega
    have h1 := selectnbsend_full hopen ⟨toString now, req.Type_⟩ pick hnone (by omega)
    simp only [SendNotification, h1]
  · intro hcl
    simp only [SendNotification, selectnbsend_closed hcl]

/-- C6, as amended (start).  One call of `Run` on a pool with `MaxWorkers = n`
whose wait-group counter stays in the range of its `int32` (`WG + n < 2^31`; on
an idle pool, where the counter is zero, `n < 2^31`) returns, having appended
exactly `n` goroutines, with worker IDs `0, 1, ..., n-1` in this order (each
once), every one at its first program point, and having raised the counter by
exactly `n`; queue, configuration and output are untouched.  On an idle pool
the workers are then exactly these `n`.  When the counter would leave the range
(`WG + n >= 2^31` with `n >= 1`), `Run` does not return: `WG.Add` panics. -/
theorem run_spawns (s : Sys) (n : Nat) (hn : s.wp.MaxWorkers = (n : Int)) :
    (s.wp.WG + n < wgLimit →
      ∃ t, Run s = .ok t ∧
        t.workers = s.workers ++ (List.range n).map (fun i => ⟨i, .started⟩) ∧
        (t.workers.drop s.workers.length).map Worker.workerID = List.range n ∧
        t.wp.WG = s.wp.WG + n ∧
        t.wp.JobQueue = s.wp.JobQueue ∧
        t.wp.MaxWorkers = s.wp.MaxWorkers ∧
        t.out = s.out ∧
        t.caller = s.caller) ∧
    (1 ≤ n → wgLimit ≤ s.wp.WG + n → Run s = .error .negativeWaitGroupCounter) := by
  have hf : fresh 0 n = (List.range n).map (fun i => ⟨i, .started⟩) := by
    simp [fresh, List.range_eq_range']
  have hN : s.wp.MaxWorkers.toNat = n := by
    rw [hn, Int.toNat_ofNat]
  constructor
  · intro hlt
    refine ⟨_, Run_ok (by rw [hN]; exact hlt), ?_, ?_, ?_, rfl, rfl, rfl, rfl⟩
    · simp only [hN, hf]
    · simp only [hN, hf, List.drop_left]
      simp [Function.comp_def]
    · simp only [hN]
  · intro h1 hge
    exact Run_panics (by rw [hN]; exact h1) (by rw [hN]; exact hge)

/-- C7, as amended (second start).  `Run` has no guard.  On a pool that was
started and has run under any schedule, a second call of `Run` is a no-op
exactly in the case `MaxWorkers <= 0`.  With `MaxWorkers >= 1`, and the
wait-group counter staying in range, it returns in a different state: it has
spawned `MaxWorkers` further workers, with the IDs `0 .. MaxWorkers-1` again,
and raised the counter by `MaxWorkers`, so that the pool has twice `MaxWorkers`
worker goroutines, and as many more live ones as were spawned.  With
`MaxWorkers >= 1` and the counter leaving its range, it panics in `WG.Add`. -/
theorem run_twice (limit : Nat) (maxWorkers queueSize : Int) (wp : WorkerPool)
    (acts : List Action) (sA s : Sys)
    (hnew : NewWorkerPool limit maxWorkers queueSize = .ok wp)
    (hstart : Run (boot wp) = .ok sA)
    (hrun : exec sA acts = .ok s) :
    (maxWorkers ≤ 0 → Run s = .ok s) ∧
    (1 ≤ maxWorkers → s.wp.WG + maxWorkers.toNat < wgLimit →
      ∃ t, Run s = .ok t ∧ t ≠ s ∧
        t.workers =
          s.workers ++ (List.range maxWorkers.toNat).map (fun i => ⟨i, .started⟩) ∧
        t.workers.length = 2 * maxWorkers.toNat ∧
        t.wp.WG = s.wp.WG + maxWorkers.toNat ∧
        liveCount t.workers = liveCount s.workers + maxWorkers.toNat) ∧
    (1 ≤ maxWorkers → wgLimit ≤ s.wp.WG + maxWorkers.toNat →
      Run s = .error .negativeWaitGroupCounter) := by
  have hL := exec_later acts _ _ hrun
  have hlen : s.workers.length = maxWorkers.toNat := by
    rw [hL.length_eq, started_length hnew hstart]
  have hM : s.wp.MaxWorkers = maxWorkers := by
    rw [hL.maxWorkers_eq, started_eq hnew hstart]
  have hf : fresh 0 maxWorkers.toNat =
      (List.range maxWorkers.toNat).map (fun i => ⟨i, .started⟩) := by
    simp [fresh, List.range_eq_range']
  refine ⟨?_, ?_, ?_⟩
  · intro hle
    have hz : s.wp.MaxWorkers.toNat = 0 := by
      rw [hM]
      omega
    simp only [Run, hz, runLoop_zero]
  · intro h1 hlt
    have hw : ∀ t, Run s = .ok t → t.workers = s.workers ++ fresh 0 maxWorkers.toNat := by
      intro t ht
      rw [Run_inv ht, hM]
    have hrunok := Run_ok (s := s) (by rw [hM]; exact hlt)
    refine ⟨_, hrunok, ?_, ?_, ?_, ?_, ?_⟩
    · intro heq
      have h2 := congrArg (fun u => u.workers.length) heq
      simp only [List.length_append, fresh_length, hM] at h2
      omega
    · simp only [hM, hf]
    · simp only [List.length_append, fresh_length, hM, hlen]
      omega
    · simp only [hM]
    · simp only [liveCount_append, liveCount_fresh, hM]
  · intro h1 hge
    exact Run_panics (by rw [hM]; omega) (by rw [hM]; exact hge)

/-- C3, as amended (second shutdown).  `ShutDown` has no guard.  Once a
`ShutDown` has closed the queue and its `Wait` has returned, a second call
does not return: its `close` panics with "close of closed channel" before
`Wait` is reached, and the pool is left as it was. -/
theorem shutdown_twice (s0 s1 s2 : Sys) (acts : List Action)
    (hshut : (ShutDown s0).begun = some s1)
    (hexec : exec s1 acts = .ok s2)
    (hwait : waitReturns s2) :
    ShutDown s2 = .panicked .closeOfClosedChannel s2 ∧ waitReturns s2 := by
  obtain ⟨_, hs1⟩ := ShutDown_begun hshut
  have hcl1 : s1.wp.JobQueue.closed = true := by rw [hs1]
  have hcl : s2.wp.JobQueue.closed = true := (exec_later acts _ _ hexec).closed_mono hcl1
  refine ⟨?_, hwait⟩
  simp [ShutDown, closechan, hcl]

/-- C4, as amended (construction).  `NewWorkerPool` validates nothing: it fails
exactly when `make` panics, that is when `queueSize` is negative or above the
allocation limit, whatever `maxWorkers` is.  Otherwise it returns a pool with
`MaxWorkers = maxWorkers` (also zero or negative), an empty open queue of
capacity `queueSize` (unbuffered for zero) and a wait-group counter of zero. -/
theorem newWorkerPool_result (limit : Nat) (maxWorkers queueSize : Int) :
    ((∃ p, NewWorkerPool limit maxWorkers queueSize = .error p) ↔
      (queueSize < 0 ∨ (limit : Int) < queueSize)) ∧
    (¬ (queueSize < 0 ∨ (limit : Int) < queueSize) →
      NewWorkerPool limit maxWorkers queueSize =
        .ok ⟨maxWorkers, ⟨queueSize.toNat, [], false, [], []⟩, 0⟩) := by
  by_cases hc : queueSize < 0 ∨ (limit : Int) < queueSize
  · simp [NewWorkerPool, makechan, hc]
  · simp [NewWorkerPool, makechan, hc]

/-! ## Instances and counterexamples -/

/-- The admission decision on the freshly started two-worker pool: the queue is
open and empty, so the job is accepted. -/
theorem submit_admission_witness :
    demoStarted.wp.JobQueue.closed = false ∧
    (((demoStarted.wp.JobQueue.buf.length < demoStarted.wp.JobQueue.cap ∨
        ∃ w ∈ demoStarted.workers, w.pc = .parked) →
      ∃ t, selectnbsend demoStarted ⟨"1", "email"⟩ 0 = .sent t ∧
        t.wp.JobQueue.sent = demoStarted.wp.JobQueue.sent ++ [⟨"1", "email"⟩] ∧
        t.inFlight = demoStarted.inFlight + 1) ∧
    ((demoStarted.wp.JobQueue.buf.length = demoStarted.wp.JobQueue.cap ∧
        ∀ w ∈ demoStarted.workers, w.pc ≠ .parked) →
      selectnbsend demoStarted ⟨"1", "email"⟩ 0 = .full)) :=
  ⟨rfl, submit_admission demoStarted ⟨"1", "email"⟩ 0 rfl⟩

/-- The drain on the two-worker scenario: `ShutDown` is invoked with one job
held and two queued and blocks in `Wait`; the second `Done` releases it, after
the workers have printed all three. -/
theorem shutdown_drains_witness :
    ((1 : Int) ≤ 2 ∧ NewWorkerPool 1000 2 3 = .ok demoPool ∧
      Run (boot demoPool) = .ok demoStarted ∧
      exec demoStarted drainActs0 = .ok drainS0 ∧
      (ShutDown drainS0).begun = some drainS1) ∧
    (drainS0.wp.JobQueue.buf = [⟨"2", "sms"⟩, ⟨"3", "push"⟩] ∧
      ShutDown drainS0 = .waiting drainS1 ∧ drainS1.caller = .inWait ∧
      exec drainS1 drainActs = .ok drainS2 ∧ drainS2.caller = .returned) ∧
    ((∃ new, drainS2.out = drainS0.out ++ new ∧
        (processed new).Perm (held drainS0.workers ++ drainS0.wp.JobQueue.buf)) ∧
      drainS2.wp.JobQueue.buf = [] ∧
      (∀ w ∈ drainS2.workers, w.pc = .exited) ∧
      drainS2.workers.length = (2 : Int).toNat ∧
      drainS2.wp.WG = 0) :=
  ⟨⟨by decide, rfl, rfl, rfl, rfl⟩, ⟨rfl, rfl, rfl, rfl, rfl⟩,
    (shutdown_drains 1000 2 3 demoPool drainActs0 demoStarted drainS0 drainS1
      (by decide) rfl rfl rfl rfl).2 drainActs drainS2 rfl rfl⟩

/-- C3, counterexample.  After a `ShutDown` that closed the queue and whose
`Wait` returned, a second `ShutDown` panics instead of returning. -/
theorem shutdown_twice_counterexample :
    (ShutDown drainS0).begun = some drainS1 ∧
    exec drainS1 drainActs = .ok drainS2 ∧
    waitReturns drainS2 ∧
    ShutDown drainS2 = .panicked .closeOfClosedChannel drainS2 ∧
    ¬ ∃ t, ShutDown drainS2 = .returned t :=
  ⟨rfl, rfl, rfl, rfl, by
    rintro ⟨t, ht⟩
    have h : ShutDown drainS2 = .panicked .closeOfClosedChannel drainS2 := rfl
    rw [h] at ht
    cases ht⟩

/-- The second shutdown on the two-worker scenario, after the first one has
returned. -/
theorem shutdown_twice_witness :
    ((ShutDown drainS0).begun = some drainS1 ∧ exec drainS1 drainActs = .ok drainS2 ∧
      waitReturns drainS2) ∧
    (ShutDown drainS2 = .panicked .closeOfClosedChannel drainS2 ∧ waitReturns drainS2) :=
  ⟨⟨rfl, rfl, rfl⟩, shutdown_twice drainS0 drainS1 drainS2 drainActs rfl rfl rfl⟩

/-- C4, counterexample.  With `maxWorkers = 0` the constructor does not fail,
and neither does it with `queueSize = 0`. -/
theorem newWorkerPool_counterexample :
    ¬ ((∃ p, NewWorkerPool 1000 0 5 = .error p) ↔ ((0 : Int) ≤ 0 ∨ (5 : Int) ≤ 0)) ∧
    NewWorkerPool 1000 0 5 = .ok ⟨0, ⟨5, [], false, [], []⟩, 0⟩ ∧
    NewWorkerPool 1000 3 0 = .ok ⟨3, ⟨0, [], false, [], []⟩, 0⟩ := by
  refine ⟨?_, rfl, rfl⟩
  intro h
  obtain ⟨p, hp⟩ := h.2 (Or.inl (le_refl 0))
  have h1 : NewWorkerPool 1000 0 5 = .ok ⟨0, ⟨5, [], false, [], []⟩, 0⟩ := rfl
  rw [h1] at hp
  cases hp

/-- The constructor with a negative worker count and an unbuffered queue. -/
theorem newWorkerPool_result_witness :
    ¬ ((0 : Int) < 0 ∨ ((1000 : Nat) : Int) < 0) ∧
    NewWorkerPool 1000 (-4) 0 = .ok ⟨-4, ⟨(0 : Int).toNat, [], false, [], []⟩, 0⟩ :=
  ⟨by decide, (newWorkerPool_result 1000 (-4) 0).2 (by decide)⟩

/-- The two-worker scenario after its shutdown: submissions fail, and what was
processed had been accepted before. -/
theorem closed_rejects_witness :
    (NewWorkerPool 1000 2 3 = .ok demoPool ∧
      Run (boot demoPool) = .ok demoStarted ∧
      exec demoStarted drainActs0 = .ok drainS0 ∧
      (ShutDown drainS0).begun = some drainS1 ∧
      exec drainS1 drainActs = .ok drainS2) ∧
    ((∀ (req : Req) (now : Int) (pick : Nat),
        SendNotification drainS2 (.ok req) now pick = .panicked .sendOnClosedChannel drainS2 ∧
        step drainS2 (.request (.ok req) now pick) = .ok drainS2) ∧
      drainS2.wp.JobQueue.sent = drainS0.wp.JobQueue.sent ∧
      (processed drainS2.out).Subperm drainS0.wp.JobQueue.sent) :=
  ⟨⟨rfl, rfl, rfl, rfl, rfl⟩,
    closed_rejects 1000 2 3 demoPool drainActs0 drainActs demoStarted drainS0 drainS1 drainS2
      rfl rfl rfl rfl rfl⟩

/-- C6, counterexample.  On the idle pool with `MaxWorkers = 2^31`, which the
constructor returns, `Run` does not return with `2^31` workers spawned: the
`Add` of its last iteration finds the counter at `2^31 - 1` and panics. -/
theorem run_spawns_counterexample :
    NewWorkerPool 1000 2147483648 3 = .ok bigPool ∧
    (boot bigPool).wp.MaxWorkers = ((2147483648 : Nat) : Int) ∧
    (boot bigPool).workers = [] ∧ (boot bigPool).wp.WG = 0 ∧
    Run (boot bigPool) = .error .negativeWaitGroupCounter ∧
    ¬ ∃ t, Run (boot bigPool) = .ok t := by
  have h : Run (boot bigPool) = .error .negativeWaitGroupCounter :=
    Run_panics (s := boot bigPool) (by decide) (by decide)
  refine ⟨rfl, rfl, rfl, rfl, h, ?_⟩
  rintro ⟨t, ht⟩
  rw [h] at ht
  cases ht

/-- The first start of the idle two-worker pool. -/
theorem run_spawns_witness :
    ((boot demoPool).wp.MaxWorkers = ((2 : Nat) : Int) ∧
      (boot demoPool).wp.WG + 2 < wgLimit) ∧
    ∃ t, Run (boot demoPool) = .ok t ∧
      t.workers = (boot demoPool).workers ++ (List.range 2).map (fun i => ⟨i, .started⟩) ∧
      (t.workers.drop (boot demoPool).workers.length).map Worker.workerID = List.range 2 ∧
      t.wp.WG = (boot demoPool).wp.WG + 2 ∧
      t.wp.JobQueue = (boot demoPool).wp.JobQueue ∧
      t.wp.MaxWorkers = (boot demoPool).wp.MaxWorkers ∧
      t.out = (boot demoPool).out ∧
      t.caller = (boot demoPool).caller :=
  ⟨⟨rfl, by decide⟩, (run_spawns (boot demoPool) 2 rfl).1 (by decide)⟩

/-- C7, counterexample.  A second `Run` on the started pool of two workers
neither fails nor is a no-op: it returns, and the pool then has four worker
goroutines, all live, and a wait-group counter of four. -/
theorem run_twice_counterexample :
    Run (boot demoPool) = .ok demoStarted ∧
    demoStarted.wp.MaxWorkers = 2 ∧
    demoStarted.workers.length = 2 ∧
    Run demoStarted = .ok demoTwice ∧
    demoTwice.workers.length = 4 ∧
    liveCount demoTwice.workers = 4 ∧
    demoTwice.wp.WG = 4 ∧
    demoTwice ≠ demoStarted := by
  refine ⟨rfl, rfl, rfl, rfl, rfl, rfl, rfl, ?_⟩
  intro h
  have h1 := congrArg (fun s => s.workers.length) h
  have h2 : demoTwice.workers.length = 4 := rfl
  have h3 : demoStarted.workers.length = 2 := rfl
  simp only [h2, h3] at h1
  omega

/-- A second start of the two-worker pool while it holds three jobs. -/
theorem run_twice_witness :
    (NewWorkerPool 1000 2 3 = .ok demoPool ∧
      Run (boot demoPool) = .ok demoStarted ∧
      exec demoStarted drainActs0 = .ok drainS0 ∧
      (1 : Int) ≤ 2 ∧ drainS0.wp.WG + (2 : Int).toNat < wgLimit) ∧
    ∃ t, Run drainS0 = .ok t ∧ t ≠ drainS0 ∧
      t.workers =
        drainS0.workers ++ (List.range (2 : Int).toNat).map (fun i => ⟨i, .started⟩) ∧
      t.workers.length = 2 * (2 : Int).toNat ∧
      t.wp.WG = drainS0.wp.WG + (2 : Int).toNat ∧
      liveCount t.workers = liveCount drainS0.workers + (2 : Int).toNat :=
  ⟨⟨rfl, rfl, rfl, by decide, by decide⟩,
    (run_twice 1000 2 3 demoPool drainActs0 demoStarted drainS0 rfl rfl rfl).2.1
      (by decide) (by decide)⟩

/-- Three submissions to the freshly started pool of capacity three. -/
theorem fifo_order_witness :
    (NewWorkerPool 1000 2 3 = .ok demoPool ∧
      Run (boot demoPool) = .ok demoStarted ∧
      exec demoStarted [] = .ok demoStarted ∧
      demoStarted.wp.JobQueue.closed = false ∧
      demoStarted.wp.JobQueue.buf = [] ∧
      (∀ w ∈ demoStarted.workers, w.pc ≠ .parked) ∧
      fifoReqs.length ≤ demoStarted.wp.JobQueue.cap) ∧
    jobsOf fifoReqs = [⟨"1", "email"⟩, ⟨"2", "sms"⟩, ⟨"3", "push"⟩] ∧
    (∃ s1, exec demoStarted (fifoReqs.map toAction) = .ok s1 ∧
      s1.wp.JobQueue.buf = jobsOf fifoReqs ∧
      s1.wp.JobQueue.sent = demoStarted.wp.JobQueue.sent ++ jobsOf fifoReqs ∧
      ∀ (acts : List Action) (s2 : Sys), exec s1 acts = .ok s2 →
        ∃ d, s2.wp.JobQueue.recvd = s1.wp.JobQueue.recvd ++ d ∧
          ∀ i, i < d.length → i < (jobsOf fifoReqs).length →
            d[i]? = (jobsOf fifoReqs)[i]?) :=
  ⟨⟨rfl, rfl, rfl, rfl, rfl, by decide, by decide⟩, rfl,
    fifo_order 1000 2 3 demoPool [] demoStarted demoStarted fifoReqs rfl rfl rfl rfl rfl
      (by decide) (by decide)⟩

/-- The saturated two-worker pool of capacity three: five jobs in flight, and
a sixth submission is answered 503. -/
theorem inflight_bound_witness :
    (NewWorkerPool 1000 2 3 = .ok demoPool ∧
      Run (boot demoPool) = .ok demoStarted ∧
      exec demoStarted fullActs = .ok fullS) ∧
    (fullS.queued = 3 ∧ fullS.inFlight = 5 ∧ fullS.wp.JobQueue.closed = false) ∧
    (fullS.queued ≤ (3 : Int).toNat ∧
      fullS.inFlight ≤ (3 : Int).toNat + (2 : Int).toNat ∧
      (fullS.inFlight = (3 : Int).toNat + (2 : Int).toNat →
        ∀ (req : Req) (now : Int) (pick : Nat),
          (fullS.wp.JobQueue.closed = false →
            SendNotification fullS (.ok req) now pick =
              .responded ⟨503, [("error", "Server is busy, too many request")]⟩ fullS) ∧
          (fullS.wp.JobQueue.closed = true →
            SendNotification fullS (.ok req) now pick =
              .panicked .sendOnClosedChannel fullS))) :=
  ⟨⟨rfl, rfl, rfl⟩, ⟨rfl, rfl, rfl⟩,
    inflight_bound 1000 2 3 demoPool fullActs demoStarted fullS rfl rfl rfl⟩

/-- C10, counterexample.  On the pool whose queue `ShutDown` has closed, a
request that parses is answered neither 202 nor 503: the handler panics in the
send. -/
theorem sendNotification_counterexample :
    (ShutDown drainS0).begun = some drainS1 ∧
    SendNotification drainS1 (.ok ⟨"email", "hello"⟩) 7 0 =
      .panicked .sendOnClosedChannel drainS1 ∧
    ¬ ∃ r t, SendNotification drainS1 (.ok ⟨"email", "hello"⟩) 7 0 = .responded r t := by
  refine ⟨rfl, rfl, ?_⟩
  rintro ⟨r, t, h⟩
  have h1 : SendNotification drainS1 (.ok ⟨"email", "hello"⟩) 7 0 =
      .panicked .sendOnClosedChannel drainS1 := rfl
  rw [h1] at h
  cases h

/-- The handler on the freshly started pool, for a request of type `email` at
clock reading 7. -/
theorem sendNotification_outcomes_witness :
    demoStarted.wp.JobQueue.closed = false ∧
    mkJob ⟨"email", "hello"⟩ 7 = ⟨"7", "email"⟩ ∧
    ((mkJob ⟨"email", "hello"⟩ 7).Type_ = "email" ∧
      ((∃ t, selectnbsend demoStarted (mkJob ⟨"email", "hello"⟩ 7) 0 = .sent t ∧
          SendNotification demoStarted (.ok ⟨"email", "hello"⟩) 7 0 =
            .responded ⟨202, [("message", "Request queued"),
              ("job_id", (mkJob ⟨"email", "hello"⟩ 7).ID)]⟩ t ∧
          t.wp.JobQueue.sent = demoStarted.wp.JobQueue.sent ++ [mkJob ⟨"email", "hello"⟩ 7]) ∨
        (selectnbsend demoStarted (mkJob ⟨"email", "hello"⟩ 7) 0 = .full ∧
          SendNotification demoStarted (.ok ⟨"email", "hello"⟩) 7 0 =
            .responded ⟨503, [("error", "Server is busy, too many request")]⟩ demoStarted))) :=
  ⟨rfl, rfl, (sendNotification_outcomes demoStarted 7 0).1 ⟨"email", "hello"⟩ rfl⟩

end NotifyPump
